import Mathlib

/-!
Shallow embedding of `migrate_to_db.py` (SkillVerse data migration script).

The script reads two line-delimited JSON files (`wallets.txt`,
`transactions.txt`) and inserts rows into the `Wallet` and `Transaction`
tables, skipping records whose owning user is absent and records that
already exist.  External machinery is modelled as follows:

* `json.loads` on a raw text line is abstracted by `RawLine`: a line is
  blank, fails to parse (`JSONDecodeError`), or yields a JSON value `JVal`.
* Python exceptions relevant to the script are the inductive `PyExc`;
  the `except (json.JSONDecodeError, ValueError)` clause catches exactly
  the ones `caught` marks.
* `datetime.fromisoformat` is abstracted by an oracle `isoOk : String → Bool`
  saying which strings parse; `datetime.utcnow()` is an abstract import-time
  value `now : DT`.
* `int(x)` / `float(x)` follow Python: numbers and booleans coerce, strings
  parse (`ValueError` on failure; digit forms modelled, exotic forms such as
  underscores or exponents are out of the modelled fragment), and
  `None`/lists/dicts raise `TypeError`.
* The SQLAlchemy session is modelled by a committed `DB` plus a staged list;
  queries during a run see committed rows plus rows already staged in the
  same session (the library's autoflush behaviour), and the single
  end-of-loop commit either appends the staged batch or (on failure) rolls
  it back.
-/

namespace Migrate

/-- Python exceptions that the script's code paths can raise. -/
inductive PyExc : Type
  | jsonDecodeError
  | valueError
  | typeError
  | attributeError
  deriving DecidableEq, Repr

/-- JSON values as produced by `json.loads`.  Numbers keep Python's
int/float distinction; floats are modelled as rationals (the script never
does arithmetic on them, it only coerces and stores them). -/
inductive JVal : Type
  | jnull
  | jbool (b : Bool)
  | jint (n : Int)
  | jfloat (q : ℚ)
  | jstr (s : String)
  | jarr (elems : List JVal)
  | jobj (fields : List (String × JVal))

mutual

/-- Decidable equality for `JVal` (hand-written: the deriving handler does
not support nested inductives). -/
def JVal.decEq : (a b : JVal) → Decidable (a = b)
  | .jnull, .jnull => isTrue rfl
  | .jbool a, .jbool b =>
      if h : a = b then isTrue (by rw [h]) else isFalse (by simp [h])
  | .jint a, .jint b =>
      if h : a = b then isTrue (by rw [h]) else isFalse (by simp [h])
  | .jfloat a, .jfloat b =>
      if h : a = b then isTrue (by rw [h]) else isFalse (by simp [h])
  | .jstr a, .jstr b =>
      if h : a = b then isTrue (by rw [h]) else isFalse (by simp [h])
  | .jarr as, .jarr bs =>
      match JVal.decEqList as bs with
      | isTrue h => isTrue (by rw [h])
      | isFalse h => isFalse (by simp [h])
  | .jobj as, .jobj bs =>
      match JVal.decEqFields as bs with
      | isTrue h => isTrue (by rw [h])
      | isFalse h => isFalse (by simp [h])
  | .jnull, .jbool _ => isFalse nofun
  | .jnull, .jint _ => isFalse nofun
  | .jnull, .jfloat _ => isFalse nofun
  | .jnull, .jstr _ => isFalse nofun
  | .jnull, .jarr _ => isFalse nofun
  | .jnull, .jobj _ => isFalse nofun
  | .jbool _, .jnull => isFalse nofun
  | .jbool _, .jint _ => isFalse nofun
  | .jbool _, .jfloat _ => isFalse nofun
  | .jbool _, .jstr _ => isFalse nofun
  | .jbool _, .jarr _ => isFalse nofun
  | .jbool _, .jobj _ => isFalse nofun
  | .jint _, .jnull => isFalse nofun
  | .jint _, .jbool _ => isFalse nofun
  | .jint _, .jfloat _ => isFalse nofun
  | .jint _, .jstr _ => isFalse nofun
  | .jint _, .jarr _ => isFalse nofun
  | .jint _, .jobj _ => isFalse nofun
  | .jfloat _, .jnull => isFalse nofun
  | .jfloat _, .jbool _ => isFalse nofun
  | .jfloat _, .jint _ => isFalse nofun
  | .jfloat _, .jstr _ => isFalse nofun
  | .jfloat _, .jarr _ => isFalse nofun
  | .jfloat _, .jobj _ => isFalse nofun
  | .jstr _, .jnull => isFalse nofun
  | .jstr _, .jbool _ => isFalse nofun
  | .jstr _, .jint _ => isFalse nofun
  | .jstr _, .jfloat _ => isFalse nofun
  | .jstr _, .jarr _ => isFalse nofun
  | .jstr _, .jobj _ => isFalse nofun
  | .jarr _, .jnull => isFalse nofun
  | .jarr _, .jbool _ => isFalse nofun
  | .jarr _, .jint _ => isFalse nofun
  | .jarr _, .jfloat _ => isFalse nofun
  | .jarr _, .jstr _ => isFalse nofun
  | .jarr _, .jobj _ => isFalse nofun
  | .jobj _, .jnull => isFalse nofun
  | .jobj _, .jbool _ => isFalse nofun
  | .jobj _, .jint _ => isFalse nofun
  | .jobj _, .jfloat _ => isFalse nofun
  | .jobj _, .jstr _ => isFalse nofun
  | .jobj _, .jarr _ => isFalse nofun

/-- Decidable equality for lists of `JVal`. -/
def JVal.decEqList : (a b : List JVal) → Decidable (a = b)
  | [], [] => isTrue rfl
  | [], _ :: _ => isFalse nofun
  | _ :: _, [] => isFalse nofun
  | x :: xs, y :: ys =>
      match JVal.decEq x y, JVal.decEqList xs ys with
      | isTrue hx, isTrue hxs => isTrue (by rw [hx, hxs])
      | isFalse hx, _ => isFalse (by simp [hx])
      | _, isFalse hxs => isFalse (by simp [hxs])

/-- Decidable equality for JSON object field lists. -/
def JVal.decEqFields : (a b : List (String × JVal)) → Decidable (a = b)
  | [], [] => isTrue rfl
  | [], _ :: _ => isFalse nofun
  | _ :: _, [] => isFalse nofun
  | (k, x) :: xs, (l, y) :: ys =>
      if hk : k = l then
        match JVal.decEq x y, JVal.decEqFields xs ys with
        | isTrue hx, isTrue hxs => isTrue (by rw [hk, hx, hxs])
        | isFalse hx, _ => isFalse (by simp [hx])
        | _, isFalse hxs => isFalse (by simp [hxs])
      else isFalse (by simp [hk])

end

instance : DecidableEq JVal := JVal.decEq

instance : BEq JVal := instBEqOfDecidableEq

/-- Abstract datetime values: either the result of a successful
`datetime.fromisoformat` on a string, or the import-time clock
(`datetime.utcnow()`), indexed so distinct runs can have distinct times. -/
inductive DT : Type
  | parsed (s : String)
  | tick (n : Nat)
  deriving DecidableEq, Repr

/-- One raw line of an input file, with `json.loads` abstracted:
the line strips to empty, fails JSON parsing, or parses to a value. -/
inductive RawLine : Type
  | blank
  | malformed
  | record (data : JVal)

/-- Python truthiness of a JSON value (`if data.get(...)`). -/
def pyTruthy : JVal → Bool
  | .jnull => false
  | .jbool b => b
  | .jint n => n != 0
  | .jfloat q => q != 0
  | .jstr s => s != ""
  | .jarr elems => !elems.isEmpty
  | .jobj fields => !fields.isEmpty

/-- Numeric value of a list of decimal digit characters. -/
def digitsNat (cs : List Char) : Nat :=
  cs.foldl (fun a c => a * 10 + (c.toNat - 48)) 0

/-- Python `int` applied to a string: optional sign followed by a nonempty
run of digits; anything else raises `ValueError` (`none` here). -/
def strToInt? (s : String) : Option Int :=
  let core : List Char → Option Int := fun cs =>
    if cs.isEmpty then none
    else if cs.all Char.isDigit then some (digitsNat cs : Int)
    else none
  match s.data with
  | '-' :: rest => (core rest).map (fun n => -n)
  | '+' :: rest => core rest
  | cs => core cs

/-- Python `float` applied to an unsigned decimal string body. -/
def parseUnsignedFloat? (cs : List Char) : Option ℚ :=
  match cs.splitOn '.' with
  | [intPart] =>
      if intPart.isEmpty then none
      else if intPart.all Char.isDigit then some ((digitsNat intPart : ℚ))
      else none
  | [intPart, fracPart] =>
      if intPart.isEmpty && fracPart.isEmpty then none
      else if intPart.all Char.isDigit && fracPart.all Char.isDigit then
        some ((digitsNat intPart : ℚ) + (digitsNat fracPart : ℚ) / (10 ^ fracPart.length))
      else none
  | _ => none

/-- Python `float` applied to a string: optional sign then decimal body. -/
def strToFloat? (s : String) : Option ℚ :=
  match s.data with
  | '-' :: rest => (parseUnsignedFloat? rest).map (fun q => -q)
  | '+' :: rest => parseUnsignedFloat? rest
  | cs => parseUnsignedFloat? cs

/-- Truncation toward zero, the behaviour of Python `int` on a float. -/
def ratTrunc (q : ℚ) : Int :=
  if 0 ≤ q then Int.floor q else -Int.floor (-q)

/-- Python `int(x)` on a JSON value: ints, floats and bools coerce,
strings parse or raise `ValueError`, `None`/lists/dicts raise `TypeError`. -/
def pyInt : JVal → Except PyExc Int
  | .jbool b => .ok (if b then 1 else 0)
  | .jint n => .ok n
  | .jfloat q => .ok (ratTrunc q)
  | .jstr s =>
      match strToInt? s with
      | some n => .ok n
      | none => .error .valueError
  | _ => .error .typeError

/-- Python `float(x)` on a JSON value, same shape as `pyInt`. -/
def pyFloat : JVal → Except PyExc ℚ
  | .jbool b => .ok (if b then 1 else 0)
  | .jint n => .ok (n : ℚ)
  | .jfloat q => .ok q
  | .jstr s =>
      match strToFloat? s with
      | some q => .ok q
      | none => .error .valueError
  | _ => .error .typeError

/-- Python `data.get(key, default)`: on a dict, the stored value or the
default; on any non-dict value the attribute access `.get` raises
`AttributeError`. -/
def dictGet : JVal → String → JVal → Except PyExc JVal
  | .jobj fields, key, dflt =>
      match fields.lookup key with
      | some v => .ok v
      | none => .ok dflt
  | _, _, _ => .error .attributeError

/-- Exceptions caught by the per-line `except (json.JSONDecodeError,
ValueError)` clause of both importers. -/
def caught : PyExc → Bool
  | .jsonDecodeError => true
  | .valueError => true
  | _ => false

/-- Timestamp normalisation shared by both importers (lines 62-68, 69-73
and 141-146 of the source): if the raw field value is falsy the field
stays `None` and later defaults to `utcnow`; if it is a truthy string the
library parses it (`ValueError` on bad strings caught, giving `utcnow`);
a truthy non-string raises `TypeError`, also caught, giving `utcnow`. -/
def tsOrNow (isoOk : String → Bool) (now : DT) (v : JVal) : DT :=
  if pyTruthy v then
    match v with
    | .jstr s => if isoOk s then DT.parsed s else now
    | _ => now
  else now

/-- A row of the `wallets` table. -/
structure Wallet : Type where
  user_id : Int
  balance : ℚ
  created_at : DT
  last_updated : DT
  deriving DecidableEq, Repr

/-- A row of the `transactions` table.  Fields other than `user_id`,
`amount` and `timestamp` are copied through as raw JSON values. -/
structure Transaction : Type where
  transaction_id : JVal
  user_id : Int
  username : JVal
  amount : ℚ
  method : JVal
  status : JVal
  txn_type : JVal
  description : JVal
  new_balance : JVal
  txn_date : JVal
  txn_time : JVal
  timestamp : DT
  deriving DecidableEq

/-- The database state visible to the script: the set of user ids (read
only), and the wallet and transaction tables. -/
structure DB : Type where
  users : List Int
  wallets : List Wallet
  txns : List Transaction
  deriving DecidableEq

/-- Result of `Wallet.query.filter_by(user_id=u).first()` over a row list. -/
def hasWallet (ws : List Wallet) (u : Int) : Bool :=
  ws.any (fun w => w.user_id == u)

/-- Result of `Transaction.query.filter_by(transaction_id=tid,
user_id=u).first()` over a row list. -/
def txnExists (ts : List Transaction) (tid : JVal) (u : Int) : Bool :=
  ts.any (fun t => t.transaction_id == tid && t.user_id == u)

/-- Per-run mutable state of the wallet loop: rows staged in the session
(`db.session.add`), the `count` counter and the `skipped` counter. -/
structure WState : Type where
  staged : List Wallet
  count : Nat
  skipped : Nat
  deriving DecidableEq

/-- Per-run mutable state of the transaction loop. -/
structure TState : Type where
  staged : List Transaction
  count : Nat
  skipped : Nat
  deriving DecidableEq

/-- Body of the `try` block of `migrate_wallets` (source lines 45-83) for
one parsed line: extract and coerce the user id, check referential
integrity, check for an existing wallet (committed rows plus rows staged
earlier in this session), normalise the two timestamps, coerce the
balance, and stage the new row.  `.error` is an exception leaving the
`try` block. -/
def walletTryBody (isoOk : String → Bool) (now : DT) (us : List Int)
    (committed : List Wallet) (s : WState) (data : JVal) : Except PyExc WState :=
  match dictGet data "user_id" (JVal.jint 0) with
  | .error e => .error e
  | .ok uidVal =>
    match pyInt uidVal with
    | .error e => .error e
    | .ok user_id =>
      if us.contains user_id then
        if hasWallet (committed ++ s.staged) user_id then .ok s
        else
          match dictGet data "created_at" JVal.jnull,
                dictGet data "last_updated" JVal.jnull,
                dictGet data "balance" (JVal.jfloat 0) with
          | .ok caVal, .ok luVal, .ok balVal =>
            match pyFloat balVal with
            | .error e => .error e
            | .ok balance =>
                .ok { s with
                        staged := s.staged ++
                          [⟨user_id, balance, tsOrNow isoOk now caVal,
                            tsOrNow isoOk now luVal⟩],
                        count := s.count + 1 }
          | .error e, _, _ => .error e
          | _, .error e, _ => .error e
          | _, _, .error e => .error e
      else .ok { s with skipped := s.skipped + 1 }

/-- One iteration of the wallet loop (source lines 41-87): blank lines are
passed over, a JSON parse failure is caught by the `except` clause, and an
exception from the `try` body is caught exactly when it is a
`JSONDecodeError` or `ValueError`; anything else propagates. -/
def processWalletLine (isoOk : String → Bool) (now : DT) (us : List Int)
    (committed : List Wallet) (s : WState) : RawLine → Except PyExc WState
  | .blank => .ok s
  | .malformed => .ok s
  | .record data =>
      match walletTryBody isoOk now us committed s data with
      | .ok s' => .ok s'
      | .error e => if caught e then .ok s else .error e

/-- Outcome of one sub-procedure: a normal return carrying the new
committed database and the returned count, or an exception escaping the
sub-procedure with the database as it stood (staged rows lost). -/
inductive RunResult : Type
  | ok (db : DB) (ret : Nat)
  | exc (e : PyExc) (db : DB)
  deriving DecidableEq

/-- The `migrate_wallets` sub-procedure (source lines 24-96).  `file` is
`none` when `wallets.txt` is absent; `commitOk` says whether the single
end-of-loop `db.session.commit()` succeeds (on failure the staged batch is
rolled back).  In both commit outcomes the staged-line count is returned. -/
def migrate_wallets (isoOk : String → Bool) (now : DT) (commitOk : Bool)
    (file : Option (List RawLine)) (db : DB) : RunResult :=
  match file with
  | none => .ok db 0
  | some lines =>
      match lines.foldlM (processWalletLine isoOk now db.users db.wallets) ⟨[], 0, 0⟩ with
      | .error e => .exc e db
      | .ok s =>
          if commitOk then .ok { db with wallets := db.wallets ++ s.staged } s.count
          else .ok db s.count

/-- Body of the `try` block of `migrate_transactions` (source lines
120-164) for one parsed line: extract the external id and user id, check
referential integrity, check for an existing row keyed on the
(transaction id, user id) pair, normalise the timestamp, coerce the
amount, copy the descriptive fields through with their defaults, and
stage the new row. -/
def txnTryBody (isoOk : String → Bool) (now : DT) (us : List Int)
    (committed : List Transaction) (s : TState) (data : JVal) : Except PyExc TState :=
  match dictGet data "id" (JVal.jstr "") with
  | .error e => .error e
  | .ok tidVal =>
    match dictGet data "user_id" (JVal.jint 0) with
    | .error e => .error e
    | .ok uidVal =>
      match pyInt uidVal with
      | .error e => .error e
      | .ok user_id =>
        if us.contains user_id then
          if txnExists (committed ++ s.staged) tidVal user_id then .ok s
          else
            match dictGet data "timestamp" JVal.jnull,
                  dictGet data "username" JVal.jnull,
                  dictGet data "amount" (JVal.jint 0) with
            | .ok tsVal, .ok unVal, .ok amtVal =>
              match dictGet data "method" (JVal.jstr "wallet"),
                    dictGet data "status" (JVal.jstr "success"),
                    dictGet data "type" JVal.jnull with
              | .ok methodVal, .ok statusVal, .ok typeVal =>
                match dictGet data "description" (JVal.jstr ""),
                      dictGet data "new_balance" JVal.jnull,
                      dictGet data "date" (JVal.jstr ""),
                      dictGet data "time" (JVal.jstr "") with
                | .ok descVal, .ok nbVal, .ok dateVal, .ok timeVal =>
                  match pyFloat amtVal with
                  | .error e => .error e
                  | .ok amount =>
                      .ok { s with
                              staged := s.staged ++
                                [⟨tidVal, user_id, unVal, amount, methodVal,
                                  statusVal, typeVal, descVal, nbVal, dateVal,
                                  timeVal, tsOrNow isoOk now tsVal⟩],
                              count := s.count + 1 }
                | .error e, _, _, _ => .error e
                | _, .error e, _, _ => .error e
                | _, _, .error e, _ => .error e
                | _, _, _, .error e => .error e
              | .error e, _, _ => .error e
              | _, .error e, _ => .error e
              | _, _, .error e => .error e
            | .error e, _, _ => .error e
            | _, .error e, _ => .error e
            | _, _, .error e => .error e
        else .ok { s with skipped := s.skipped + 1 }

/-- One iteration of the transaction loop (source lines 116-168), same
catch discipline as `processWalletLine`. -/
def processTxnLine (isoOk : String → Bool) (now : DT) (us : List Int)
    (committed : List Transaction) (s : TState) : RawLine → Except PyExc TState
  | .blank => .ok s
  | .malformed => .ok s
  | .record data =>
      match txnTryBody isoOk now us committed s data with
      | .ok s' => .ok s'
      | .error e => if caught e then .ok s else .error e

/-- The `migrate_transactions` sub-procedure (source lines 99-177). -/
def migrate_transactions (isoOk : String → Bool) (now : DT) (commitOk : Bool)
    (file : Option (List RawLine)) (db : DB) : RunResult :=
  match file with
  | none => .ok db 0
  | some lines =>
      match lines.foldlM (processTxnLine isoOk now db.users db.txns) ⟨[], 0, 0⟩ with
      | .error e => .exc e db
      | .ok s =>
          if commitOk then .ok { db with txns := db.txns ++ s.staged } s.count
          else .ok db s.count

/-- One run of the whole job (the `__main__` block): wallets first, then
transactions, each committing independently; an exception escaping a
sub-procedure aborts the process, leaving only previously committed rows.
The job's effect on the database, with commits succeeding. -/
def jobOnce (isoOk : String → Bool) (now : DT)
    (wfile tfile : Option (List RawLine)) (db : DB) : DB :=
  match migrate_wallets isoOk now true wfile db with
  | .exc _ dbw => dbw
  | .ok dbw _ =>
      match migrate_transactions isoOk now true tfile dbw with
      | .exc _ dbt => dbt
      | .ok dbt _ => dbt

instance : LawfulBEq JVal where
  eq_of_beq h := of_decide_eq_true h
  rfl := by simp [BEq.beq]

/-- Membership reading of the wallet existence check. -/
theorem hasWallet_iff_mem (ws : List Wallet) (u : Int) :
    hasWallet ws u = true ↔ u ∈ ws.map Wallet.user_id := by
  simp [hasWallet, List.any_eq_true, List.mem_map]

/-- Wallet existence check over the empty table. -/
theorem hasWallet_nil (u : Int) : hasWallet [] u = false := rfl

/-- The existence checks distribute over list append. -/
theorem hasWallet_append (xs ys : List Wallet) (u : Int) :
    hasWallet (xs ++ ys) u = (hasWallet xs u || hasWallet ys u) := by
  simp [hasWallet, List.any_append]

/-- The transaction existence check distributes over list append. -/
theorem txnExists_append (xs ys : List Transaction) (tid : JVal) (u : Int) :
    txnExists (xs ++ ys) tid u = (txnExists xs tid u || txnExists ys tid u) := by
  simp [txnExists, List.any_append]

/-- C7: if the input file of a sub-procedure is absent, that sub-procedure
returns a count of zero, leaves the database untouched, and returns
normally (no exception escapes), for any clock, parsing oracle and commit
outcome. -/
theorem missing_file_returns_zero (isoOk : String → Bool) (now : DT)
    (commitOk : Bool) (db : DB) :
    migrate_wallets isoOk now commitOk none db = RunResult.ok db 0
    ∧ migrate_transactions isoOk now commitOk none db = RunResult.ok db 0 :=
  ⟨rfl, rfl⟩

/-- C2: when the single end-of-loop commit fails, the staged batch is
rolled back — the resulting database is exactly the input database, so no
staged row persists — yet the sub-procedure returns the count of lines it
staged, which may be positive. -/
theorem commit_failure_rolls_back (isoOk : String → Bool) (now : DT)
    (lines : List RawLine) (db : DB) :
    (∀ s : WState,
        lines.foldlM (processWalletLine isoOk now db.users db.wallets) ⟨[], 0, 0⟩ = .ok s →
        migrate_wallets isoOk now false (some lines) db = RunResult.ok db s.count)
    ∧ (∀ s : TState,
        lines.foldlM (processTxnLine isoOk now db.users db.txns) ⟨[], 0, 0⟩ = .ok s →
        migrate_transactions isoOk now false (some lines) db = RunResult.ok db s.count) := by
  constructor
  · intro s h; simp [migrate_wallets, h]
  · intro s h; simp [migrate_transactions, h]

/-- C2 witness: a run that stages one wallet, returns count 1, and yet
persists nothing because the commit fails. -/
theorem commit_failure_rolls_back_witness :
    migrate_wallets (fun _ => false) (DT.tick 0) false
      (some [RawLine.record (JVal.jobj [("user_id", JVal.jint 7)])])
      ⟨[7], [], []⟩ = RunResult.ok ⟨[7], [], []⟩ 1 :=
  (commit_failure_rolls_back (fun _ => false) (DT.tick 0)
      [RawLine.record (JVal.jobj [("user_id", JVal.jint 7)])] ⟨[7], [], []⟩).1
    ⟨[⟨7, 0, DT.tick 0, DT.tick 0⟩], 1, 0⟩ rfl

/-- C3: a parseable wallet line whose extracted user id is not among the
valid user ids stages no row, leaves the migrated count unchanged,
increments the skipped counter by exactly one, and returns normally so the
loop continues with the next line. -/
theorem wallet_referential_skip (isoOk : String → Bool) (now : DT)
    (us : List Int) (committed : List Wallet) (s : WState) (data uv : JVal)
    (uid : Int)
    (h1 : dictGet data "user_id" (JVal.jint 0) = .ok uv)
    (h2 : pyInt uv = .ok uid)
    (h3 : us.contains uid = false) :
    processWalletLine isoOk now us committed s (RawLine.record data)
      = .ok { s with skipped := s.skipped + 1 } := by
  have h3' : uid ∉ us := by simpa using h3
  simp [processWalletLine, walletTryBody, h1, h2, h3']

/-- C3 witness: user 5 absent from the user set, line skipped. -/
theorem wallet_referential_skip_witness :
    processWalletLine (fun _ => false) (DT.tick 0) [1, 2] [] ⟨[], 0, 0⟩
      (RawLine.record (JVal.jobj [("user_id", JVal.jint 5)]))
      = .ok ⟨[], 0, 1⟩ :=
  wallet_referential_skip (fun _ => false) (DT.tick 0) [1, 2] [] ⟨[], 0, 0⟩
    (JVal.jobj [("user_id", JVal.jint 5)]) (JVal.jint 5) 5 rfl rfl rfl

/-- C10: in both importers, a parseable object line with no `user_id`
field is treated as user id 0 (the `.get` default before `int` coercion);
when 0 is not a valid user id the line is counted as a referential skip —
the skipped counter increments, no row is staged, and the parse-error path
is not taken. -/
theorem missing_user_id_defaults_to_zero (isoOk : String → Bool) (now : DT)
    (us : List Int) (wc : List Wallet) (tc : List Transaction)
    (ws : WState) (ts : TState) (fields : List (String × JVal))
    (hno : fields.lookup "user_id" = (none : Option JVal))
    (h0 : us.contains 0 = false) :
    processWalletLine isoOk now us wc ws (RawLine.record (JVal.jobj fields))
      = .ok { ws with skipped := ws.skipped + 1 }
    ∧ processTxnLine isoOk now us tc ts (RawLine.record (JVal.jobj fields))
      = .ok { ts with skipped := ts.skipped + 1 } := by
  have h0' : (0 : Int) ∉ us := by simpa using h0
  constructor
  · simp [processWalletLine, walletTryBody, dictGet, hno, pyInt, h0']
  · cases hid : fields.lookup "id" <;>
      simp [processTxnLine, txnTryBody, dictGet, hno, hid, pyInt, h0']

/-- C10 witness: an object with only an `amount` field, no user 0. -/
theorem missing_user_id_defaults_to_zero_witness :
    processWalletLine (fun _ => false) (DT.tick 0) [1] [] ⟨[], 0, 0⟩
      (RawLine.record (JVal.jobj [("amount", JVal.jint 3)]))
      = .ok ⟨[], 0, 1⟩
    ∧ processTxnLine (fun _ => false) (DT.tick 0) [1] [] ⟨[], 0, 0⟩
      (RawLine.record (JVal.jobj [("amount", JVal.jint 3)]))
      = .ok ⟨[], 0, 1⟩ :=
  missing_user_id_defaults_to_zero (fun _ => false) (DT.tick 0) [1] [] []
    ⟨[], 0, 0⟩ ⟨[], 0, 0⟩ [("amount", JVal.jint 3)] rfl rfl

/-- C9: the scenario line with user id 7 and balance 250.5, when user 7
is valid and has no wallet yet, creates exactly one wallet row carrying
balance 250.5 with both timestamps set to the import time, and the
sub-procedure returns count 1. -/
theorem wallet_scenario_user7 (isoOk : String → Bool) (now : DT) (db : DB)
    (hu : db.users.contains 7 = true)
    (hw : hasWallet db.wallets 7 = false) :
    migrate_wallets isoOk now true
      (some [RawLine.record (JVal.jobj
        [("user_id", JVal.jint 7), ("balance", JVal.jfloat (250.5 : ℚ))])]) db
      = RunResult.ok
          { db with wallets := db.wallets ++ [⟨7, (250.5 : ℚ), now, now⟩] } 1 := by
  have hu' : (7 : Int) ∈ db.users := by simpa using hu
  simp [migrate_wallets, List.foldlM, processWalletLine, walletTryBody,
    dictGet, List.lookup, pyInt, pyFloat, hu', tsOrNow, pyTruthy,
    hasWallet_append, hw, hasWallet_nil]

/-- C9 witness: concrete database with user 7 and empty tables. -/
theorem wallet_scenario_user7_witness :
    migrate_wallets (fun _ => false) (DT.tick 0) true
      (some [RawLine.record (JVal.jobj
        [("user_id", JVal.jint 7), ("balance", JVal.jfloat (250.5 : ℚ))])])
      ⟨[7], [], []⟩
      = RunResult.ok ⟨[7], [⟨7, (250.5 : ℚ), DT.tick 0, DT.tick 0⟩], []⟩ 1 :=
  wallet_scenario_user7 (fun _ => false) (DT.tick 0) ⟨[7], [], []⟩ rfl rfl

/-- C5: timestamp fallback is applied independently per field.  A staged
wallet stores `tsOrNow` of each raw field separately, and `tsOrNow` yields
the import time exactly on missing (`null`, defaulted), falsy, non-string
or unparseable values, while a parseable string is stored as parsed — so
one field can default while the sibling parses. -/
theorem timestamp_fallback_per_field (isoOk : String → Bool) (now : DT) :
    (∀ (us : List Int) (committed : List Wallet) (s : WState)
        (data uv cv lv bv : JVal) (uid : Int) (b : ℚ),
        dictGet data "user_id" (JVal.jint 0) = .ok uv →
        pyInt uv = .ok uid →
        uid ∈ us →
        hasWallet (committed ++ s.staged) uid = false →
        dictGet data "created_at" JVal.jnull = .ok cv →
        dictGet data "last_updated" JVal.jnull = .ok lv →
        dictGet data "balance" (JVal.jfloat 0) = .ok bv →
        pyFloat bv = .ok b →
        processWalletLine isoOk now us committed s (RawLine.record data)
          = .ok { s with
                    staged := s.staged ++
                      [⟨uid, b, tsOrNow isoOk now cv, tsOrNow isoOk now lv⟩],
                    count := s.count + 1 })
    ∧ (∀ v : JVal, (∀ str : String, v ≠ JVal.jstr str) → tsOrNow isoOk now v = now)
    ∧ (∀ str : String, isoOk str = false → tsOrNow isoOk now (JVal.jstr str) = now)
    ∧ tsOrNow isoOk now (JVal.jstr "") = now
    ∧ (∀ str : String, str ≠ "" → isoOk str = true →
        tsOrNow isoOk now (JVal.jstr str) = DT.parsed str) := by
  refine ⟨?_, ?_, ?_, ?_, ?_⟩
  · intro us committed s data uv cv lv bv uid b h1 h2 h3 h4 h5 h6 h7 h8
    simp [processWalletLine, walletTryBody, h1, h2, h3, h4, h5, h6, h7, h8]
  · intro v hv
    cases v <;> simp_all [tsOrNow, pyTruthy]
  · intro str h; simp [tsOrNow, pyTruthy, h]
  · simp [tsOrNow, pyTruthy]
  · intro str hne h; simp [tsOrNow, pyTruthy, hne, h]

/-- C5 witness: a record whose created_at is unparseable and whose
last_updated parses; the staged wallet defaults the first field to
the import time and stores the second exactly as parsed. -/
theorem timestamp_fallback_per_field_witness :
    processWalletLine (fun t => t == "2024-01-02T03:04:05") (DT.tick 9) [4] []
      ⟨[], 0, 0⟩
      (RawLine.record (JVal.jobj
        [("user_id", JVal.jint 4), ("created_at", JVal.jstr "bad"),
         ("last_updated", JVal.jstr "2024-01-02T03:04:05")]))
      = .ok ⟨[⟨4, 0, DT.tick 9, DT.parsed "2024-01-02T03:04:05"⟩], 1, 0⟩
    ∧ tsOrNow (fun t => t == "2024-01-02T03:04:05") (DT.tick 9) (JVal.jstr "bad")
        = DT.tick 9
    ∧ tsOrNow (fun t => t == "2024-01-02T03:04:05") (DT.tick 9)
        (JVal.jstr "2024-01-02T03:04:05") = DT.parsed "2024-01-02T03:04:05" :=
  ⟨(timestamp_fallback_per_field (fun t => t == "2024-01-02T03:04:05")
      (DT.tick 9)).1 [4] [] ⟨[], 0, 0⟩
      (JVal.jobj [("user_id", JVal.jint 4), ("created_at", JVal.jstr "bad"),
        ("last_updated", JVal.jstr "2024-01-02T03:04:05")])
      (JVal.jint 4) (JVal.jstr "bad") (JVal.jstr "2024-01-02T03:04:05")
      (JVal.jfloat 0) 4 0 rfl rfl (by simp) rfl rfl rfl rfl rfl,
   (timestamp_fallback_per_field (fun t => t == "2024-01-02T03:04:05")
      (DT.tick 9)).2.2.1 "bad" rfl,
   (timestamp_fallback_per_field (fun t => t == "2024-01-02T03:04:05")
      (DT.tick 9)).2.2.2.2 "2024-01-02T03:04:05" (by simp) rfl⟩

/-- C4: the transaction duplicate check is keyed on the (transaction id,
user id) pair: two input records sharing an external id but owned by two
different valid users, with no matching pre-existing rows, are both
inserted — neither is skipped as a duplicate — and the run returns
count 2. -/
theorem txn_key_is_pair (isoOk : String → Bool) (now : DT) (T : String)
    (u1 u2 a1 a2 : Int) (db : DB)
    (h1 : u1 ∈ db.users) (h2 : u2 ∈ db.users) (hne : u1 ≠ u2)
    (e1 : txnExists db.txns (JVal.jstr T) u1 = false)
    (e2 : txnExists db.txns (JVal.jstr T) u2 = false) :
    migrate_transactions isoOk now true
      (some [RawLine.record (JVal.jobj
               [("id", JVal.jstr T), ("user_id", JVal.jint u1),
                ("amount", JVal.jint a1)]),
             RawLine.record (JVal.jobj
               [("id", JVal.jstr T), ("user_id", JVal.jint u2),
                ("amount", JVal.jint a2)])]) db
      = RunResult.ok
          { db with txns := db.txns ++
              [⟨JVal.jstr T, u1, JVal.jnull, (a1 : ℚ), JVal.jstr "wallet",
                JVal.jstr "success", JVal.jnull, JVal.jstr "", JVal.jnull,
                JVal.jstr "", JVal.jstr "", now⟩,
               ⟨JVal.jstr T, u2, JVal.jnull, (a2 : ℚ), JVal.jstr "wallet",
                JVal.jstr "success", JVal.jnull, JVal.jstr "", JVal.jnull,
                JVal.jstr "", JVal.jstr "", now⟩] } 2 := by
  have hs1 : txnExists
      [⟨JVal.jstr T, u1, JVal.jnull, (a1 : ℚ), JVal.jstr "wallet",
        JVal.jstr "success", JVal.jnull, JVal.jstr "", JVal.jnull,
        JVal.jstr "", JVal.jstr "", now⟩] (JVal.jstr T) u2 = false := by
    simp [txnExists, hne]
  simp [migrate_transactions, List.foldlM, processTxnLine, txnTryBody,
    dictGet, List.lookup, pyInt, pyFloat, h1, h2, tsOrNow, pyTruthy,
    txnExists_append, e1, e2, hs1, Bind.bind, Except.bind, pure, Except.pure]

/-- C4 witness: id TXN1 shared by users 1 and 2, both rows inserted. -/
theorem txn_key_is_pair_witness :
    migrate_transactions (fun _ => false) (DT.tick 0) true
      (some [RawLine.record (JVal.jobj
               [("id", JVal.jstr "TXN1"), ("user_id", JVal.jint 1),
                ("amount", JVal.jint 5)]),
             RawLine.record (JVal.jobj
               [("id", JVal.jstr "TXN1"), ("user_id", JVal.jint 2),
                ("amount", JVal.jint 6)])]) ⟨[1, 2], [], []⟩
      = RunResult.ok
          ⟨[1, 2], [],
           [⟨JVal.jstr "TXN1", 1, JVal.jnull, 5, JVal.jstr "wallet",
             JVal.jstr "success", JVal.jnull, JVal.jstr "", JVal.jnull,
             JVal.jstr "", JVal.jstr "", DT.tick 0⟩,
            ⟨JVal.jstr "TXN1", 2, JVal.jnull, 6, JVal.jstr "wallet",
             JVal.jstr "success", JVal.jnull, JVal.jstr "", JVal.jnull,
             JVal.jstr "", JVal.jstr "", DT.tick 0⟩]⟩ 2 :=
  txn_key_is_pair (fun _ => false) (DT.tick 0) "TXN1" 1 2 5 6 ⟨[1, 2], [], []⟩
    (by simp) (by simp) (by decide) rfl rfl

/-- C6 counterexample: the input line with a `null` user id makes the
coercion `int(None)` raise `TypeError`, which the per-line handler does
not catch; the exception escapes `migrate_wallets`, the following valid
line (user 3, which would have been migrated) is never processed, and no
row is committed — contradicting the claim that a line whose type
coercion fails is merely skipped and never aborts the sub-procedure. -/
theorem coercion_type_error_escapes :
    migrate_wallets (fun _ => false) (DT.tick 0) true
      (some [RawLine.record (JVal.jobj [("user_id", JVal.jnull)]),
             RawLine.record (JVal.jobj
               [("user_id", JVal.jint 3), ("balance", JVal.jint 1)])])
      ⟨[3], [], []⟩
      = RunResult.exc PyExc.typeError ⟨[3], [], []⟩ := rfl

/-- C6 amended: a line that fails JSON parsing, or whose `try` body raises
an exception of a caught class (`JSONDecodeError` or `ValueError`, the
latter covering coercion failures on string values), is skipped with the
loop state unchanged and the loop returns normally to continue with the
next line; exceptions outside those classes (such as the `TypeError` from
coercing `null`) are not handled here. -/
theorem caught_parse_errors_skip_line (isoOk : String → Bool) (now : DT)
    (us : List Int) (wc : List Wallet) (tc : List Transaction)
    (ws : WState) (ts : TState) :
    processWalletLine isoOk now us wc ws RawLine.malformed = .ok ws
    ∧ (∀ (data : JVal) (e : PyExc),
        walletTryBody isoOk now us wc ws data = .error e → caught e = true →
        processWalletLine isoOk now us wc ws (RawLine.record data) = .ok ws)
    ∧ processTxnLine isoOk now us tc ts RawLine.malformed = .ok ts
    ∧ (∀ (data : JVal) (e : PyExc),
        txnTryBody isoOk now us tc ts data = .error e → caught e = true →
        processTxnLine isoOk now us tc ts (RawLine.record data) = .ok ts) := by
  refine ⟨rfl, ?_, rfl, ?_⟩
  · intro data e h hc; simp [processWalletLine, h, hc]
  · intro data e h hc; simp [processTxnLine, h, hc]

/-- C6 amended witness: a non-numeric string user id raises `ValueError`,
which is caught, and both loops continue with state unchanged. -/
theorem caught_parse_errors_skip_line_witness :
    processWalletLine (fun _ => false) (DT.tick 0) [3] [] ⟨[], 0, 0⟩
      (RawLine.record (JVal.jobj [("user_id", JVal.jstr "abc")])) = .ok ⟨[], 0, 0⟩
    ∧ processTxnLine (fun _ => false) (DT.tick 0) [3] [] ⟨[], 0, 0⟩
      (RawLine.record (JVal.jobj [("user_id", JVal.jstr "abc")])) = .ok ⟨[], 0, 0⟩ :=
  ⟨(caught_parse_errors_skip_line (fun _ => false) (DT.tick 0) [3] [] []
      ⟨[], 0, 0⟩ ⟨[], 0, 0⟩).2.1 (JVal.jobj [("user_id", JVal.jstr "abc")])
      PyExc.valueError rfl rfl,
   (caught_parse_errors_skip_line (fun _ => false) (DT.tick 0) [3] [] []
      ⟨[], 0, 0⟩ ⟨[], 0, 0⟩).2.2.2 (JVal.jobj [("user_id", JVal.jstr "abc")])
      PyExc.valueError rfl rfl⟩

/-- Invariant of the wallet table: at most one wallet row per user id. -/
def uniqueWallets (ws : List Wallet) : Prop :=
  (ws.map Wallet.user_id).Nodup

/-- The wallet-table invariant read off a sub-procedure outcome. -/
def walletRunUnique : RunResult → Prop
  | .ok db _ => uniqueWallets db.wallets
  | .exc _ db => uniqueWallets db.wallets

/-- One wallet-loop iteration preserves distinctness of user ids across
the committed table plus the staged batch: a row is staged only when the
existence check over exactly that combined list fails. -/
theorem wallet_step_preserves_unique (isoOk : String → Bool) (now : DT)
    (us : List Int) (W : List Wallet) (s s' : WState) (l : RawLine)
    (h : processWalletLine isoOk now us W s l = .ok s')
    (hu : ((W ++ s.staged).map Wallet.user_id).Nodup) :
    ((W ++ s'.staged).map Wallet.user_id).Nodup := by
  cases l with
  | blank => cases h; exact hu
  | malformed => cases h; exact hu
  | record data =>
    simp only [processWalletLine] at h
    rcases hb : walletTryBody isoOk now us W s data with e | t <;>
      simp only [hb] at h
    · rcases hc : caught e with _ | _ <;> simp [hc] at h
      cases h; exact hu
    · cases h
      simp only [walletTryBody] at hb
      rcases hg : dictGet data "user_id" (JVal.jint 0) with e | uv <;>
        simp only [hg] at hb
      · cases hb
      rcases hp : pyInt uv with e | uid <;> simp only [hp] at hb
      · cases hb
      by_cases hin : us.contains uid = true
      · simp only [if_pos hin] at hb
        by_cases hw : hasWallet (W ++ s.staged) uid = true
        · simp only [if_pos hw] at hb
          cases hb; exact hu
        · simp only [if_neg hw] at hb
          rcases hca : dictGet data "created_at" JVal.jnull with e | cv <;>
            simp only [hca] at hb
          · cases hb
          rcases hlu : dictGet data "last_updated" JVal.jnull with e | lv <;>
            simp only [hlu] at hb
          · cases hb
          rcases hba : dictGet data "balance" (JVal.jfloat 0) with e | bv <;>
            simp only [hba] at hb
          · cases hb
          rcases hf : pyFloat bv with e | b <;> simp only [hf] at hb
          · cases hb
          cases hb
          have hnw' : uid ∉ (W ++ s.staged).map Wallet.user_id := by
            intro hm
            rw [← hasWallet_iff_mem] at hm
            exact hw hm
          have key : ((W ++ s.staged).map Wallet.user_id ++ [uid]).Nodup := by
            refine hu.append (List.nodup_singleton uid) ?_
            intro x hx hxm
            rw [List.mem_singleton] at hxm
            subst hxm
            exact hnw' hx
          simpa [List.append_assoc] using key
      · simp only [if_neg hin] at hb
        cases hb; exact hu

/-- The whole wallet loop preserves the combined-distinctness invariant. -/
theorem wallet_fold_preserves_unique (isoOk : String → Bool) (now : DT)
    (us : List Int) (W : List Wallet) (lines : List RawLine) :
    ∀ s s' : WState,
      lines.foldlM (processWalletLine isoOk now us W) s = .ok s' →
      ((W ++ s.staged).map Wallet.user_id).Nodup →
      ((W ++ s'.staged).map Wallet.user_id).Nodup := by
  induction lines with
  | nil =>
    intro s s' h hu
    cases h; exact hu
  | cons l ls ih =>
    intro s s' h hu
    rw [List.foldlM_cons] at h
    rcases hm : processWalletLine isoOk now us W s l with e | m <;> rw [hm] at h
    · exact absurd h (by simp [Bind.bind, Except.bind])
    · simp only [Bind.bind, Except.bind] at h
      exact ih m s' h (wallet_step_preserves_unique isoOk now us W s m l hm hu)

/-- C8: the wallet importer preserves the invariant that at most one
wallet row exists per user id — starting from a database satisfying it,
after any run (any input file, including one repeating a user id within
the run, any commit outcome, even an escaping exception) the resulting
wallet table still satisfies it. -/
theorem wallet_importer_preserves_uniqueness (isoOk : String → Bool)
    (now : DT) (commitOk : Bool) (file : Option (List RawLine)) (db : DB)
    (hu : uniqueWallets db.wallets) :
    walletRunUnique (migrate_wallets isoOk now commitOk file db) := by
  cases file with
  | none => exact hu
  | some lines =>
    rcases hf : lines.foldlM (processWalletLine isoOk now db.users db.wallets)
        ⟨[], 0, 0⟩ with e | s
    · simpa [migrate_wallets, hf, walletRunUnique] using hu
    · have hres := wallet_fold_preserves_unique isoOk now db.users db.wallets
        lines ⟨[], 0, 0⟩ s hf (by simpa [uniqueWallets] using hu)
      cases commitOk with
      | true =>
        simpa [migrate_wallets, hf, walletRunUnique, uniqueWallets] using hres
      | false =>
        simpa [migrate_wallets, hf, walletRunUnique] using hu

/-- C8 witness: a run whose input repeats user 1 twice still yields a
wallet table with distinct user ids. -/
theorem wallet_importer_preserves_uniqueness_witness :
    uniqueWallets ([] : List Wallet)
    ∧ walletRunUnique (migrate_wallets (fun _ => false) (DT.tick 0) true
        (some [RawLine.record (JVal.jobj [("user_id", JVal.jint 1)]),
               RawLine.record (JVal.jobj [("user_id", JVal.jint 1)])])
        ⟨[1], [], []⟩) :=
  ⟨by simp [uniqueWallets],
   wallet_importer_preserves_uniqueness (fun _ => false) (DT.tick 0) true
     (some [RawLine.record (JVal.jobj [("user_id", JVal.jint 1)]),
            RawLine.record (JVal.jobj [("user_id", JVal.jint 1)])])
     ⟨[1], [], []⟩ (by simp [uniqueWallets])⟩

/-- A successful `data.get` witnesses that `data` is a dict, on which
every further `.get` succeeds. -/
theorem dictGet_always_ok (data : JVal) (k k' : String) (d d' v : JVal)
    (h : dictGet data k d = .ok v) : ∃ v', dictGet data k' d' = .ok v' := by
  cases data with
  | jobj fields =>
      cases hl : fields.lookup k' with
      | none => exact ⟨d', by simp [dictGet, hl]⟩
      | some w => exact ⟨w, by simp [dictGet, hl]⟩
  | jnull => exact absurd h (by simp [dictGet])
  | jbool b => exact absurd h (by simp [dictGet])
  | jint n => exact absurd h (by simp [dictGet])
  | jfloat q => exact absurd h (by simp [dictGet])
  | jstr s => exact absurd h (by simp [dictGet])
  | jarr elems => exact absurd h (by simp [dictGet])

/-- The wallet existence check only depends on the list of user ids. -/
theorem hasWallet_eq_any_map (xs : List Wallet) (u : Int) :
    hasWallet xs u = (xs.map Wallet.user_id).any (fun v => v == u) := by
  induction xs with
  | nil => rfl
  | cons w ws ih =>
      simp only [hasWallet, List.any_cons, List.map_cons] at ih ⊢
      rw [ih]

/-- Lists of wallets with the same user ids agree on existence checks. -/
theorem hasWallet_congr (xs ys : List Wallet)
    (hm : xs.map Wallet.user_id = ys.map Wallet.user_id) (u : Int) :
    hasWallet xs u = hasWallet ys u := by
  rw [hasWallet_eq_any_map, hasWallet_eq_any_map, hm]

/-- Each wallet-loop iteration only ever appends to the staged list. -/
theorem walletLine_extends (isoOk : String → Bool) (now : DT)
    (us : List Int) (W : List Wallet) (s s' : WState) (l : RawLine)
    (h : processWalletLine isoOk now us W s l = .ok s') :
    ∃ t, s'.staged = s.staged ++ t := by
  cases l with
  | blank => cases h; exact ⟨[], by simp⟩
  | malformed => cases h; exact ⟨[], by simp⟩
  | record data =>
    simp only [processWalletLine] at h
    rcases hb : walletTryBody isoOk now us W s data with e | t <;>
      simp only [hb] at h
    · rcases hc : caught e with _ | _ <;> simp [hc] at h
      cases h; exact ⟨[], by simp⟩
    · cases h
      simp only [walletTryBody] at hb
      rcases hg : dictGet data "user_id" (JVal.jint 0) with e | uv <;>
        simp only [hg] at hb
      · cases hb
      rcases hp : pyInt uv with e | uid <;> simp only [hp] at hb
      · cases hb
      by_cases hin : us.contains uid = true
      · simp only [if_pos hin] at hb
        by_cases hw : hasWallet (W ++ s.staged) uid = true
        · simp only [if_pos hw] at hb; cases hb; exact ⟨[], by simp⟩
        · simp only [if_neg hw] at hb
          obtain ⟨cv, hca⟩ := dictGet_always_ok data "user_id" "created_at"
            (JVal.jint 0) JVal.jnull uv hg
          obtain ⟨lv, hlu⟩ := dictGet_always_ok data "user_id" "last_updated"
            (JVal.jint 0) JVal.jnull uv hg
          obtain ⟨bv, hba⟩ := dictGet_always_ok data "user_id" "balance"
            (JVal.jint 0) (JVal.jfloat 0) uv hg
          simp only [hca, hlu, hba] at hb
          rcases hf : pyFloat bv with e | b <;> simp only [hf] at hb
          · cases hb
          cases hb
          exact ⟨_, rfl⟩
      · simp only [if_neg hin] at hb; cases hb; exact ⟨[], by simp⟩

/-- The staged list at the end of the wallet loop extends every
intermediate staged list. -/
theorem walletFold_extends (isoOk : String → Bool) (now : DT)
    (us : List Int) (W : List Wallet) (lines : List RawLine) :
    ∀ s s' : WState,
      lines.foldlM (processWalletLine isoOk now us W) s = .ok s' →
      ∃ t, s'.staged = s.staged ++ t := by
  induction lines with
  | nil => intro s s' h; cases h; exact ⟨[], by simp⟩
  | cons l ls ih =>
    intro s s' h
    rw [List.foldlM_cons] at h
    rcases hm : processWalletLine isoOk now us W s l with e | m <;> rw [hm] at h
    · exact absurd h (by simp [Bind.bind, Except.bind])
    · simp only [Bind.bind, Except.bind] at h
      obtain ⟨t1, ht1⟩ := walletLine_extends isoOk now us W s m l hm
      obtain ⟨t2, ht2⟩ := ih m s' h
      exact ⟨t1 ++ t2, by rw [ht2, ht1, List.append_assoc]⟩

/-- Replay of one wallet line on a later database run: if a first run
(clock `now1`, committed table `W1`) processed line `l` normally, and the
second run's committed table `W2` covers both `W1` and every wallet the
first run staged, then the second run passes over `l` without staging
anything and without counting a migration — only its skipped counter can
move. -/
theorem walletLine_replay (isoOk : String → Bool) (now1 now2 : DT)
    (us : List Int) (W1 W2 : List Wallet)
    (hW : ∀ u, hasWallet W1 u = true → hasWallet W2 u = true)
    (l : RawLine) (s1 s1' : WState)
    (h1 : processWalletLine isoOk now1 us W1 s1 l = .ok s1')
    (hstg : ∀ w ∈ s1'.staged, hasWallet W2 w.user_id = true)
    (s2 : WState) :
    ∃ k, processWalletLine isoOk now2 us W2 s2 l
      = .ok ⟨s2.staged, s2.count, k⟩ := by
  cases l with
  | blank => exact ⟨s2.skipped, rfl⟩
  | malformed => exact ⟨s2.skipped, rfl⟩
  | record data =>
    simp only [processWalletLine] at h1 ⊢
    rcases hg : dictGet data "user_id" (JVal.jint 0) with e | uv
    · have hb1 : walletTryBody isoOk now1 us W1 s1 data = .error e := by
        simp [walletTryBody, hg]
      have hb2 : walletTryBody isoOk now2 us W2 s2 data = .error e := by
        simp [walletTryBody, hg]
      rw [hb1] at h1; rw [hb2]
      rcases hc : caught e with _ | _ <;> simp [hc] at h1 ⊢
      exact ⟨s2.skipped, rfl⟩
    · rcases hp : pyInt uv with e | uid
      · have hb1 : walletTryBody isoOk now1 us W1 s1 data = .error e := by
          simp [walletTryBody, hg, hp]
        have hb2 : walletTryBody isoOk now2 us W2 s2 data = .error e := by
          simp [walletTryBody, hg, hp]
        rw [hb1] at h1; rw [hb2]
        rcases hc : caught e with _ | _ <;> simp [hc] at h1 ⊢
        exact ⟨s2.skipped, rfl⟩
      · by_cases hin : uid ∈ us
        · by_cases hw1 : hasWallet (W1 ++ s1.staged) uid = true
          · have hb1 : walletTryBody isoOk now1 us W1 s1 data = .ok s1 := by
              simp [walletTryBody, hg, hp, hin, hw1]
            rw [hb1] at h1; cases h1
            have h2w : hasWallet W2 uid = true := by
              have hw1' : hasWallet W1 uid = true
                  ∨ hasWallet s1.staged uid = true := by
                simpa [hasWallet_append] using hw1
              rcases hw1' with hl | hr
              · exact hW uid hl
              · rw [hasWallet_iff_mem, List.mem_map] at hr
                obtain ⟨w, hwmem, hweq⟩ := hr
                rw [← hweq]
                exact hstg w hwmem
            have hb2 : walletTryBody isoOk now2 us W2 s2 data = .ok s2 := by
              simp [walletTryBody, hg, hp, hin, hasWallet_append, h2w]
            rw [hb2]
            exact ⟨s2.skipped, rfl⟩
          · obtain ⟨cv, hca⟩ := dictGet_always_ok data "user_id" "created_at"
              (JVal.jint 0) JVal.jnull uv hg
            obtain ⟨lv, hlu⟩ := dictGet_always_ok data "user_id" "last_updated"
              (JVal.jint 0) JVal.jnull uv hg
            obtain ⟨bv, hba⟩ := dictGet_always_ok data "user_id" "balance"
              (JVal.jint 0) (JVal.jfloat 0) uv hg
            rcases hf : pyFloat bv with e | b
            · have hb1 : walletTryBody isoOk now1 us W1 s1 data = .error e := by
                simp [walletTryBody, hg, hp, hin, hw1, hca, hlu, hba, hf]
              rw [hb1] at h1
              rcases hc : caught e with _ | _ <;> simp [hc] at h1
              by_cases hw2 : hasWallet (W2 ++ s2.staged) uid = true
              · have hb2 : walletTryBody isoOk now2 us W2 s2 data = .ok s2 := by
                  simp [walletTryBody, hg, hp, hin, hw2]
                rw [hb2]
                exact ⟨s2.skipped, rfl⟩
              · have hb2 : walletTryBody isoOk now2 us W2 s2 data = .error e := by
                  simp [walletTryBody, hg, hp, hin, hw2, hca, hlu, hba, hf]
                rw [hb2]
                simp [hc]
                exact ⟨s2.skipped, rfl⟩
            · have hb1 : walletTryBody isoOk now1 us W1 s1 data
                  = .ok { s1 with
                            staged := s1.staged ++
                              [⟨uid, b, tsOrNow isoOk now1 cv,
                                tsOrNow isoOk now1 lv⟩],
                            count := s1.count + 1 } := by
                simp [walletTryBody, hg, hp, hin, hw1, hca, hlu, hba, hf]
              rw [hb1] at h1; cases h1
              have h2w : hasWallet W2 uid = true := by
                have hm : (⟨uid, b, tsOrNow isoOk now1 cv,
                    tsOrNow isoOk now1 lv⟩ : Wallet) ∈ s1.staged ++
                      [⟨uid, b, tsOrNow isoOk now1 cv, tsOrNow isoOk now1 lv⟩] := by
                  simp
                exact hstg _ hm
              have hb2 : walletTryBody isoOk now2 us W2 s2 data = .ok s2 := by
                simp [walletTryBody, hg, hp, hin, hasWallet_append, h2w]
              rw [hb2]
              exact ⟨s2.skipped, rfl⟩
        · have hb1 : walletTryBody isoOk now1 us W1 s1 data
              = .ok { s1 with skipped := s1.skipped + 1 } := by
            simp [walletTryBody, hg, hp, hin]
          have hb2 : walletTryBody isoOk now2 us W2 s2 data
              = .ok { s2 with skipped := s2.skipped + 1 } := by
            simp [walletTryBody, hg, hp, hin]
          rw [hb2]
          exact ⟨s2.skipped + 1, rfl⟩

/-- Replay of the whole wallet loop: if the first run finished normally
and the second run's committed table covers the first run's committed
table and everything it staged, the second run finishes normally having
staged nothing and counted no migration. -/
theorem walletFold_replay (isoOk : String → Bool) (now1 now2 : DT)
    (us : List Int) (W1 W2 : List Wallet)
    (hW : ∀ u, hasWallet W1 u = true → hasWallet W2 u = true)
    (lines : List RawLine) :
    ∀ (s1 s1' s2 : WState),
      lines.foldlM (processWalletLine isoOk now1 us W1) s1 = .ok s1' →
      (∀ w ∈ s1'.staged, hasWallet W2 w.user_id = true) →
      ∃ k, lines.foldlM (processWalletLine isoOk now2 us W2) s2
        = .ok ⟨s2.staged, s2.count, k⟩ := by
  induction lines with
  | nil => intro s1 s1' s2 _ _; exact ⟨s2.skipped, rfl⟩
  | cons l ls ih =>
    intro s1 s1' s2 h hs
    rw [List.foldlM_cons] at h
    rcases hm : processWalletLine isoOk now1 us W1 s1 l with e | m <;>
      rw [hm] at h
    · exact absurd h (by simp [Bind.bind, Except.bind])
    · simp only [Bind.bind, Except.bind] at h
      obtain ⟨t, ht⟩ := walletFold_extends isoOk now1 us W1 ls m s1' h
      have hsm : ∀ w ∈ m.staged, hasWallet W2 w.user_id = true := by
        intro w hw
        exact hs w (by rw [ht]; exact List.mem_append_left t hw)
      obtain ⟨k0, h2⟩ := walletLine_replay isoOk now1 now2 us W1 W2 hW l s1 m
        hm hsm s2
      obtain ⟨k, h3⟩ := ih m s1' ⟨s2.staged, s2.count, k0⟩ h hs
      refine ⟨k, ?_⟩
      rw [List.foldlM_cons, h2]
      simpa [Bind.bind, Except.bind] using h3

/-- Loop states that stage rows with the same user ids (the only part of
the state the wallet control flow inspects). -/
def WState.sim (s t : WState) : Prop :=
  s.staged.map Wallet.user_id = t.staged.map Wallet.user_id

/-- Two wallet runs over the same committed table and user set, differing
only in the clock, either both process a line normally into similar
states or both raise the same uncaught exception. -/
theorem walletLine_sim (isoOk : String → Bool) (now1 now2 : DT)
    (us : List Int) (W : List Wallet) (l : RawLine) (s t : WState)
    (h : WState.sim s t) :
    (∃ s' t', processWalletLine isoOk now1 us W s l = .ok s'
        ∧ processWalletLine isoOk now2 us W t l = .ok t' ∧ WState.sim s' t')
    ∨ (∃ e, processWalletLine isoOk now1 us W s l = .error e
        ∧ processWalletLine isoOk now2 us W t l = .error e) := by
  cases l with
  | blank => exact Or.inl ⟨s, t, rfl, rfl, h⟩
  | malformed => exact Or.inl ⟨s, t, rfl, rfl, h⟩
  | record data =>
    have hmap : s.staged.map Wallet.user_id = t.staged.map Wallet.user_id := h
    have hWeq : ∀ u, hasWallet (W ++ s.staged) u = hasWallet (W ++ t.staged) u := by
      intro u
      apply hasWallet_congr
      rw [List.map_append, List.map_append, hmap]
    simp only [processWalletLine]
    rcases hg : dictGet data "user_id" (JVal.jint 0) with e | uv
    · have hb1 : walletTryBody isoOk now1 us W s data = .error e := by
        simp [walletTryBody, hg]
      have hb2 : walletTryBody isoOk now2 us W t data = .error e := by
        simp [walletTryBody, hg]
      rw [hb1, hb2]
      rcases hc : caught e with _ | _ <;> simp [hc]
      · exact h
    · rcases hp : pyInt uv with e | uid
      · have hb1 : walletTryBody isoOk now1 us W s data = .error e := by
          simp [walletTryBody, hg, hp]
        have hb2 : walletTryBody isoOk now2 us W t data = .error e := by
          simp [walletTryBody, hg, hp]
        rw [hb1, hb2]
        rcases hc : caught e with _ | _ <;> simp [hc]
        · exact h
      · by_cases hin : uid ∈ us
        · by_cases hw : hasWallet (W ++ s.staged) uid = true
          · have hw2 : hasWallet (W ++ t.staged) uid = true := by
              rw [← hWeq]; exact hw
            have hb1 : walletTryBody isoOk now1 us W s data = .ok s := by
              simp [walletTryBody, hg, hp, hin, hw]
            have hb2 : walletTryBody isoOk now2 us W t data = .ok t := by
              simp [walletTryBody, hg, hp, hin, hw2]
            rw [hb1, hb2]
            exact Or.inl ⟨s, t, rfl, rfl, h⟩
          · have hw2 : ¬ hasWallet (W ++ t.staged) uid = true := by
              rw [← hWeq]; exact hw
            obtain ⟨cv, hca⟩ := dictGet_always_ok data "user_id" "created_at"
              (JVal.jint 0) JVal.jnull uv hg
            obtain ⟨lv, hlu⟩ := dictGet_always_ok data "user_id" "last_updated"
              (JVal.jint 0) JVal.jnull uv hg
            obtain ⟨bv, hba⟩ := dictGet_always_ok data "user_id" "balance"
              (JVal.jint 0) (JVal.jfloat 0) uv hg
            rcases hf : pyFloat bv with e | b
            · have hb1 : walletTryBody isoOk now1 us W s data = .error e := by
                simp [walletTryBody, hg, hp, hin, hw, hca, hlu, hba, hf]
              have hb2 : walletTryBody isoOk now2 us W t data = .error e := by
                simp [walletTryBody, hg, hp, hin, hw2, hca, hlu, hba, hf]
              rw [hb1, hb2]
              rcases hc : caught e with _ | _ <;> simp [hc]
              · exact h
            · have hb1 : walletTryBody isoOk now1 us W s data
                  = .ok { s with
                            staged := s.staged ++
                              [⟨uid, b, tsOrNow isoOk now1 cv,
                                tsOrNow isoOk now1 lv⟩],
                            count := s.count + 1 } := by
                simp [walletTryBody, hg, hp, hin, hw, hca, hlu, hba, hf]
              have hb2 : walletTryBody isoOk now2 us W t data
                  = .ok { t with
                            staged := t.staged ++
                              [⟨uid, b, tsOrNow isoOk now2 cv,
                                tsOrNow isoOk now2 lv⟩],
                            count := t.count + 1 } := by
                simp [walletTryBody, hg, hp, hin, hw2, hca, hlu, hba, hf]
              rw [hb1, hb2]
              refine Or.inl ⟨_, _, rfl, rfl, ?_⟩
              simp only [WState.sim, List.map_append, List.map_cons,
                List.map_nil]
              rw [h]
        · have hb1 : walletTryBody isoOk now1 us W s data
              = .ok { s with skipped := s.skipped + 1 } := by
            simp [walletTryBody, hg, hp, hin]
          have hb2 : walletTryBody isoOk now2 us W t data
              = .ok { t with skipped := t.skipped + 1 } := by
            simp [walletTryBody, hg, hp, hin]
          rw [hb1, hb2]
          exact Or.inl ⟨_, _, rfl, rfl, h⟩

/-- Fold version of `walletLine_sim`: with the same committed table, two
runs differing only in the clock either both finish normally in similar
states or both abort with the same exception. -/
theorem walletFold_sim (isoOk : String → Bool) (now1 now2 : DT)
    (us : List Int) (W : List Wallet) (lines : List RawLine) :
    ∀ s t : WState, WState.sim s t →
      (∃ s' t', lines.foldlM (processWalletLine isoOk now1 us W) s = .ok s'
          ∧ lines.foldlM (processWalletLine isoOk now2 us W) t = .ok t'
          ∧ WState.sim s' t')
      ∨ (∃ e, lines.foldlM (processWalletLine isoOk now1 us W) s = .error e
          ∧ lines.foldlM (processWalletLine isoOk now2 us W) t = .error e) := by
  induction lines with
  | nil => intro s t h; exact Or.inl ⟨s, t, rfl, rfl, h⟩
  | cons l ls ih =>
    intro s t h
    rcases walletLine_sim isoOk now1 now2 us W l s t h with
      ⟨s1, t1, hs1, ht1, hsim⟩ | ⟨e, hs1, ht1⟩
    · rcases ih s1 t1 hsim with ⟨s', t', hs2, ht2, hsim'⟩ | ⟨e, hs2, ht2⟩
      · refine Or.inl ⟨s', t', ?_, ?_, hsim'⟩ <;>
          rw [List.foldlM_cons] <;>
          simp [hs1, ht1, Bind.bind, Except.bind, hs2, ht2]
      · refine Or.inr ⟨e, ?_, ?_⟩ <;>
          rw [List.foldlM_cons] <;>
          simp [hs1, ht1, Bind.bind, Except.bind, hs2, ht2]
    · refine Or.inr ⟨e, ?_, ?_⟩ <;>
        rw [List.foldlM_cons] <;>
        simp [hs1, ht1, Bind.bind, Except.bind]

/-- Normal wallet runs only append to the wallet table and never touch
users or transactions. -/
theorem mw_ok_shape (isoOk : String → Bool) (now : DT) (c : Bool)
    (f : Option (List RawLine)) (db db' : DB) (n : Nat)
    (h : migrate_wallets isoOk now c f db = .ok db' n) :
    db'.users = db.users ∧ db'.txns = db.txns
    ∧ ∃ S, db'.wallets = db.wallets ++ S := by
  cases f with
  | none =>
    cases h
    exact ⟨rfl, rfl, [], by simp⟩
  | some lines =>
    simp only [migrate_wallets] at h
    rcases hf : lines.foldlM (processWalletLine isoOk now db.users db.wallets)
        ⟨[], 0, 0⟩ with e | s <;> rw [hf] at h
    · cases h
    · cases c with
      | true => cases h; exact ⟨rfl, rfl, s.staged, rfl⟩
      | false => cases h; exact ⟨rfl, rfl, [], by simp⟩

/-- An escaping exception leaves the database exactly as it was. -/
theorem mw_exc_shape (isoOk : String → Bool) (now : DT) (c : Bool)
    (f : Option (List RawLine)) (db db' : DB) (e : PyExc)
    (h : migrate_wallets isoOk now c f db = .exc e db') : db' = db := by
  cases f with
  | none => cases h
  | some lines =>
    simp only [migrate_wallets] at h
    rcases hf : lines.foldlM (processWalletLine isoOk now db.users db.wallets)
        ⟨[], 0, 0⟩ with e1 | s <;> rw [hf] at h
    · cases h; rfl
    · cases c with
      | true => cases h
      | false => cases h

/-- A wallet run that aborts with an exception aborts identically when
replayed with a different clock. -/
theorem migrate_wallets_exc_replay (isoOk : String → Bool) (now1 now2 : DT)
    (c : Bool) (wf : Option (List RawLine)) (db db0 : DB) (e : PyExc)
    (h : migrate_wallets isoOk now1 c wf db = .exc e db0) :
    migrate_wallets isoOk now2 c wf db = .exc e db0 := by
  cases wf with
  | none => cases h
  | some lines =>
    simp only [migrate_wallets] at h ⊢
    rcases hf : lines.foldlM (processWalletLine isoOk now1 db.users db.wallets)
        ⟨[], 0, 0⟩ with e1 | s <;> rw [hf] at h
    · rcases walletFold_sim isoOk now1 now2 db.users db.wallets lines
        ⟨[], 0, 0⟩ ⟨[], 0, 0⟩ rfl with ⟨s', t', h1, _, _⟩ | ⟨e2, h1, h2⟩
      · rw [hf] at h1; cases h1
      · rw [hf] at h1
        cases h1
        rw [h2]
        exact h
    · cases c with
      | true => cases h
      | false => cases h

/-- A wallet run that finished normally replays as a no-op on any later
database that has the same users and covers its resulting wallet table:
the second run stages nothing, commits nothing new, and returns normally. -/
theorem migrate_wallets_replay (isoOk : String → Bool) (now1 now2 : DT)
    (wf : Option (List RawLine)) (db db1 db2 : DB) (n : Nat)
    (h1 : migrate_wallets isoOk now1 true wf db = .ok db1 n)
    (husers : db2.users = db.users)
    (hwal : ∀ u, hasWallet db1.wallets u = true → hasWallet db2.wallets u = true) :
    ∃ m, migrate_wallets isoOk now2 true wf db2 = .ok db2 m := by
  cases wf with
  | none => exact ⟨0, rfl⟩
  | some lines =>
    simp only [migrate_wallets] at h1 ⊢
    rcases hf : lines.foldlM (processWalletLine isoOk now1 db.users db.wallets)
        ⟨[], 0, 0⟩ with e | s <;> rw [hf] at h1
    · cases h1
    · cases h1
      have hstg : ∀ w ∈ s.staged, hasWallet db2.wallets w.user_id = true := by
        intro w hw
        apply hwal
        simp only [hasWallet_append]
        have : hasWallet s.staged w.user_id = true := by
          rw [hasWallet_iff_mem, List.mem_map]
          exact ⟨w, hw, rfl⟩
        simp [this]
      have hW : ∀ u, hasWallet db.wallets u = true
          → hasWallet db2.wallets u = true := by
        intro u hu
        apply hwal
        simp [hasWallet_append, hu]
      obtain ⟨k, h2⟩ := walletFold_replay isoOk now1 now2 db.users db.wallets
        db2.wallets hW lines ⟨[], 0, 0⟩ s ⟨[], 0, 0⟩ hf hstg
      refine ⟨0, ?_⟩
      rw [husers, h2]
      obtain ⟨u2, w2, t2⟩ := db2
      simp_all

/-- Key projection of a transaction row: the (transaction id, user id)
pair on which the duplicate check is keyed. -/
def txnKey (r : Transaction) : JVal × Int :=
  (r.transaction_id, r.user_id)

/-- Membership reading of the transaction existence check. -/
theorem txnExists_iff_mem (ts : List Transaction) (tid : JVal) (u : Int) :
    txnExists ts tid u = true ↔ (tid, u) ∈ ts.map txnKey := by
  simp [txnExists, List.any_eq_true, Bool.and_eq_true, beq_iff_eq,
    List.mem_map, txnKey, Prod.mk.injEq]

/-- The transaction existence check only depends on the key pairs. -/
theorem txnExists_eq_any_map (ts : List Transaction) (tid : JVal) (u : Int) :
    txnExists ts tid u
      = (ts.map txnKey).any (fun p => p.1 == tid && p.2 == u) := by
  induction ts with
  | nil => rfl
  | cons r rs ih =>
      simp only [txnExists, List.any_cons, List.map_cons, txnKey] at ih ⊢
      rw [ih]

/-- Lists of transactions with the same key pairs agree on existence
checks. -/
theorem txnExists_congr (xs ys : List Transaction)
    (hm : xs.map txnKey = ys.map txnKey) (tid : JVal) (u : Int) :
    txnExists xs tid u = txnExists ys tid u := by
  rw [txnExists_eq_any_map, txnExists_eq_any_map, hm]

/-- Each transaction-loop iteration only ever appends to the staged list. -/
theorem txnLine_extends (isoOk : String → Bool) (now : DT)
    (us : List Int) (T : List Transaction) (s s' : TState) (l : RawLine)
    (h : processTxnLine isoOk now us T s l = .ok s') :
    ∃ t, s'.staged = s.staged ++ t := by
  cases l with
  | blank => cases h; exact ⟨[], by simp⟩
  | malformed => cases h; exact ⟨[], by simp⟩
  | record data =>
    simp only [processTxnLine] at h
    rcases hb : txnTryBody isoOk now us T s data with e | t <;>
      simp only [hb] at h
    · rcases hc : caught e with _ | _ <;> simp [hc] at h
      cases h; exact ⟨[], by simp⟩
    · cases h
      simp only [txnTryBody] at hb
      rcases hgid : dictGet data "id" (JVal.jstr "") with e | tidVal <;>
        simp only [hgid] at hb
      · cases hb
      obtain ⟨uidVal, hgu⟩ := dictGet_always_ok data "id" "user_id"
        (JVal.jstr "") (JVal.jint 0) tidVal hgid
      simp only [hgu] at hb
      rcases hp : pyInt uidVal with e | uid <;> simp only [hp] at hb
      · cases hb
      by_cases hin : uid ∈ us
      · rw [if_pos (by simpa using hin)] at hb
        by_cases hw : txnExists (T ++ s.staged) tidVal uid = true
        · rw [if_pos hw] at hb; cases hb; exact ⟨[], by simp⟩
        · rw [if_neg hw] at hb
          obtain ⟨tsVal, h1⟩ := dictGet_always_ok data "id" "timestamp"
            (JVal.jstr "") JVal.jnull tidVal hgid
          obtain ⟨unVal, h2⟩ := dictGet_always_ok data "id" "username"
            (JVal.jstr "") JVal.jnull tidVal hgid
          obtain ⟨amtVal, h3⟩ := dictGet_always_ok data "id" "amount"
            (JVal.jstr "") (JVal.jint 0) tidVal hgid
          obtain ⟨methodVal, h4⟩ := dictGet_always_ok data "id" "method"
            (JVal.jstr "") (JVal.jstr "wallet") tidVal hgid
          obtain ⟨statusVal, h5⟩ := dictGet_always_ok data "id" "status"
            (JVal.jstr "") (JVal.jstr "success") tidVal hgid
          obtain ⟨typeVal, h6⟩ := dictGet_always_ok data "id" "type"
            (JVal.jstr "") JVal.jnull tidVal hgid
          obtain ⟨descVal, h7⟩ := dictGet_always_ok data "id" "description"
            (JVal.jstr "") (JVal.jstr "") tidVal hgid
          obtain ⟨nbVal, h8⟩ := dictGet_always_ok data "id" "new_balance"
            (JVal.jstr "") JVal.jnull tidVal hgid
          obtain ⟨dateVal, h9⟩ := dictGet_always_ok data "id" "date"
            (JVal.jstr "") (JVal.jstr "") tidVal hgid
          obtain ⟨timeVal, h10⟩ := dictGet_always_ok data "id" "time"
            (JVal.jstr "") (JVal.jstr "") tidVal hgid
          simp only [h1, h2, h3, h4, h5, h6, h7, h8, h9, h10] at hb
          rcases hf : pyFloat amtVal with e | b <;> simp only [hf] at hb
          · cases hb
          cases hb
          exact ⟨_, rfl⟩
      · rw [if_neg (by simpa using hin)] at hb
        cases hb; exact ⟨[], by simp⟩

/-- The staged list at the end of the transaction loop extends every
intermediate staged list. -/
theorem txnFold_extends (isoOk : String → Bool) (now : DT)
    (us : List Int) (T : List Transaction) (lines : List RawLine) :
    ∀ s s' : TState,
      lines.foldlM (processTxnLine isoOk now us T) s = .ok s' →
      ∃ t, s'.staged = s.staged ++ t := by
  induction lines with
  | nil => intro s s' h; cases h; exact ⟨[], by simp⟩
  | cons l ls ih =>
    intro s s' h
    rw [List.foldlM_cons] at h
    rcases hm : processTxnLine isoOk now us T s l with e | m <;> rw [hm] at h
    · exact absurd h (by simp [Bind.bind, Except.bind])
    · simp only [Bind.bind, Except.bind] at h
      obtain ⟨t1, ht1⟩ := txnLine_extends isoOk now us T s m l hm
      obtain ⟨t2, ht2⟩ := ih m s' h
      exact ⟨t1 ++ t2, by rw [ht2, ht1, List.append_assoc]⟩

/-- Replay of one transaction line on a later database run, keyed on the
(transaction id, user id) pair, mirror of `walletLine_replay`. -/
theorem txnLine_replay (isoOk : String → Bool) (now1 now2 : DT)
    (us : List Int) (T1 T2 : List Transaction)
    (hT : ∀ (tid : JVal) (u : Int),
      txnExists T1 tid u = true → txnExists T2 tid u = true)
    (l : RawLine) (s1 s1' : TState)
    (h1 : processTxnLine isoOk now1 us T1 s1 l = .ok s1')
    (hstg : ∀ r ∈ s1'.staged,
      txnExists T2 r.transaction_id r.user_id = true)
    (s2 : TState) :
    ∃ k, processTxnLine isoOk now2 us T2 s2 l
      = .ok ⟨s2.staged, s2.count, k⟩ := by
  cases l with
  | blank => exact ⟨s2.skipped, rfl⟩
  | malformed => exact ⟨s2.skipped, rfl⟩
  | record data =>
    simp only [processTxnLine] at h1 ⊢
    rcases hgid : dictGet data "id" (JVal.jstr "") with e | tidVal
    · have hb1 : txnTryBody isoOk now1 us T1 s1 data = .error e := by
        simp [txnTryBody, hgid]
      have hb2 : txnTryBody isoOk now2 us T2 s2 data = .error e := by
        simp [txnTryBody, hgid]
      rw [hb1] at h1; rw [hb2]
      rcases hc : caught e with _ | _ <;> simp [hc] at h1 ⊢
      exact ⟨s2.skipped, rfl⟩
    · obtain ⟨uidVal, hgu⟩ := dictGet_always_ok data "id" "user_id"
        (JVal.jstr "") (JVal.jint 0) tidVal hgid
      rcases hp : pyInt uidVal with e | uid
      · have hb1 : txnTryBody isoOk now1 us T1 s1 data = .error e := by
          simp [txnTryBody, hgid, hgu, hp]
        have hb2 : txnTryBody isoOk now2 us T2 s2 data = .error e := by
          simp [txnTryBody, hgid, hgu, hp]
        rw [hb1] at h1; rw [hb2]
        rcases hc : caught e with _ | _ <;> simp [hc] at h1 ⊢
        exact ⟨s2.skipped, rfl⟩
      · by_cases hin : uid ∈ us
        · by_cases hw1 : txnExists (T1 ++ s1.staged) tidVal uid = true
          · have hb1 : txnTryBody isoOk now1 us T1 s1 data = .ok s1 := by
              simp [txnTryBody, hgid, hgu, hp, hin, hw1]
            rw [hb1] at h1; cases h1
            have h2w : txnExists T2 tidVal uid = true := by
              have hw1' : txnExists T1 tidVal uid = true
                  ∨ txnExists s1.staged tidVal uid = true := by
                simpa [txnExists_append] using hw1
              rcases hw1' with hl | hr
              · exact hT tidVal uid hl
              · rw [txnExists_iff_mem, List.mem_map] at hr
                obtain ⟨r, hrmem, hreq⟩ := hr
                have := hstg r hrmem
                simp only [txnKey, Prod.mk.injEq] at hreq
                rw [← hreq.1, ← hreq.2]
                exact this
            have hb2 : txnTryBody isoOk now2 us T2 s2 data = .ok s2 := by
              simp [txnTryBody, hgid, hgu, hp, hin, txnExists_append, h2w]
            rw [hb2]
            exact ⟨s2.skipped, rfl⟩
          · obtain ⟨tsVal, k1⟩ := dictGet_always_ok data "id" "timestamp"
              (JVal.jstr "") JVal.jnull tidVal hgid
            obtain ⟨unVal, k2⟩ := dictGet_always_ok data "id" "username"
              (JVal.jstr "") JVal.jnull tidVal hgid
            obtain ⟨amtVal, k3⟩ := dictGet_always_ok data "id" "amount"
              (JVal.jstr "") (JVal.jint 0) tidVal hgid
            obtain ⟨methodVal, k4⟩ := dictGet_always_ok data "id" "method"
              (JVal.jstr "") (JVal.jstr "wallet") tidVal hgid
            obtain ⟨statusVal, k5⟩ := dictGet_always_ok data "id" "status"
              (JVal.jstr "") (JVal.jstr "success") tidVal hgid
            obtain ⟨typeVal, k6⟩ := dictGet_always_ok data "id" "type"
              (JVal.jstr "") JVal.jnull tidVal hgid
            obtain ⟨descVal, k7⟩ := dictGet_always_ok data "id" "description"
              (JVal.jstr "") (JVal.jstr "") tidVal hgid
            obtain ⟨nbVal, k8⟩ := dictGet_always_ok data "id" "new_balance"
              (JVal.jstr "") JVal.jnull tidVal hgid
            obtain ⟨dateVal, k9⟩ := dictGet_always_ok data "id" "date"
              (JVal.jstr "") (JVal.jstr "") tidVal hgid
            obtain ⟨timeVal, k10⟩ := dictGet_always_ok data "id" "time"
              (JVal.jstr "") (JVal.jstr "") tidVal hgid
            rcases hf : pyFloat amtVal with e | b
            · have hb1 : txnTryBody isoOk now1 us T1 s1 data = .error e := by
                simp [txnTryBody, hgid, hgu, hp, hin, hw1, k1, k2, k3, k4,
                  k5, k6, k7, k8, k9, k10, hf]
              rw [hb1] at h1
              rcases hc : caught e with _ | _ <;> simp [hc] at h1
              by_cases hw2 : txnExists (T2 ++ s2.staged) tidVal uid = true
              · have hb2 : txnTryBody isoOk now2 us T2 s2 data = .ok s2 := by
                  simp [txnTryBody, hgid, hgu, hp, hin, hw2]
                rw [hb2]
                exact ⟨s2.skipped, rfl⟩
              · have hb2 : txnTryBody isoOk now2 us T2 s2 data = .error e := by
                  simp [txnTryBody, hgid, hgu, hp, hin, hw2, k1, k2, k3, k4,
                    k5, k6, k7, k8, k9, k10, hf]
                rw [hb2]
                simp [hc]
                exact ⟨s2.skipped, rfl⟩
            · have hb1 : txnTryBody isoOk now1 us T1 s1 data
                  = .ok { s1 with
                            staged := s1.staged ++
                              [⟨tidVal, uid, unVal, b, methodVal, statusVal,
                                typeVal, descVal, nbVal, dateVal, timeVal,
                                tsOrNow isoOk now1 tsVal⟩],
                            count := s1.count + 1 } := by
                simp [txnTryBody, hgid, hgu, hp, hin, hw1, k1, k2, k3, k4,
                  k5, k6, k7, k8, k9, k10, hf]
              rw [hb1] at h1; cases h1
              have h2w : txnExists T2 tidVal uid = true := by
                have hm : (⟨tidVal, uid, unVal, b, methodVal, statusVal,
                    typeVal, descVal, nbVal, dateVal, timeVal,
                    tsOrNow isoOk now1 tsVal⟩ : Transaction) ∈ s1.staged ++
                      [⟨tidVal, uid, unVal, b, methodVal, statusVal,
                        typeVal, descVal, nbVal, dateVal, timeVal,
                        tsOrNow isoOk now1 tsVal⟩] := by simp
                exact hstg _ hm
              have hb2 : txnTryBody isoOk now2 us T2 s2 data = .ok s2 := by
                simp [txnTryBody, hgid, hgu, hp, hin, txnExists_append, h2w]
              rw [hb2]
              exact ⟨s2.skipped, rfl⟩
        · have hb2 : txnTryBody isoOk now2 us T2 s2 data
              = .ok { s2 with skipped := s2.skipped + 1 } := by
            simp [txnTryBody, hgid, hgu, hp, hin]
          rw [hb2]
          exact ⟨s2.skipped + 1, rfl⟩

/-- Replay of the whole transaction loop, mirror of `walletFold_replay`. -/
theorem txnFold_replay (isoOk : String → Bool) (now1 now2 : DT)
    (us : List Int) (T1 T2 : List Transaction)
    (hT : ∀ (tid : JVal) (u : Int),
      txnExists T1 tid u = true → txnExists T2 tid u = true)
    (lines : List RawLine) :
    ∀ (s1 s1' s2 : TState),
      lines.foldlM (processTxnLine isoOk now1 us T1) s1 = .ok s1' →
      (∀ r ∈ s1'.staged, txnExists T2 r.transaction_id r.user_id = true) →
      ∃ k, lines.foldlM (processTxnLine isoOk now2 us T2) s2
        = .ok ⟨s2.staged, s2.count, k⟩ := by
  induction lines with
  | nil => intro s1 s1' s2 _ _; exact ⟨s2.skipped, rfl⟩
  | cons l ls ih =>
    intro s1 s1' s2 h hs
    rw [List.foldlM_cons] at h
    rcases hm : processTxnLine isoOk now1 us T1 s1 l with e | m <;>
      rw [hm] at h
    · exact absurd h (by simp [Bind.bind, Except.bind])
    · simp only [Bind.bind, Except.bind] at h
      obtain ⟨t, ht⟩ := txnFold_extends isoOk now1 us T1 ls m s1' h
      have hsm : ∀ r ∈ m.staged,
          txnExists T2 r.transaction_id r.user_id = true := by
        intro r hr
        exact hs r (by rw [ht]; exact List.mem_append_left t hr)
      obtain ⟨k0, h2⟩ := txnLine_replay isoOk now1 now2 us T1 T2 hT l s1 m
        hm hsm s2
      obtain ⟨k, h3⟩ := ih m s1' ⟨s2.staged, s2.count, k0⟩ h hs
      refine ⟨k, ?_⟩
      rw [List.foldlM_cons, h2]
      simpa [Bind.bind, Except.bind] using h3

/-- Loop states that stage rows with the same key pairs (the only part of
the state the transaction control flow inspects). -/
def TState.sim (s t : TState) : Prop :=
  s.staged.map txnKey = t.staged.map txnKey

/-- Two transaction runs over the same committed table and user set,
differing only in the clock, either both process a line normally into
similar states or both raise the same uncaught exception. -/
theorem txnLine_sim (isoOk : String → Bool) (now1 now2 : DT)
    (us : List Int) (T : List Transaction) (l : RawLine) (s t : TState)
    (h : TState.sim s t) :
    (∃ s' t', processTxnLine isoOk now1 us T s l = .ok s'
        ∧ processTxnLine isoOk now2 us T t l = .ok t' ∧ TState.sim s' t')
    ∨ (∃ e, processTxnLine isoOk now1 us T s l = .error e
        ∧ processTxnLine isoOk now2 us T t l = .error e) := by
  cases l with
  | blank => exact Or.inl ⟨s, t, rfl, rfl, h⟩
  | malformed => exact Or.inl ⟨s, t, rfl, rfl, h⟩
  | record data =>
    have hmap : s.staged.map txnKey = t.staged.map txnKey := h
    have hTeq : ∀ (tid : JVal) (u : Int),
        txnExists (T ++ s.staged) tid u = txnExists (T ++ t.staged) tid u := by
      intro tid u
      apply txnExists_congr
      rw [List.map_append, List.map_append, hmap]
    simp only [processTxnLine]
    rcases hgid : dictGet data "id" (JVal.jstr "") with e | tidVal
    · have hb1 : txnTryBody isoOk now1 us T s data = .error e := by
        simp [txnTryBody, hgid]
      have hb2 : txnTryBody isoOk now2 us T t data = .error e := by
        simp [txnTryBody, hgid]
      rw [hb1, hb2]
      rcases hc : caught e with _ | _ <;> simp [hc]
      · exact h
    · obtain ⟨uidVal, hgu⟩ := dictGet_always_ok data "id" "user_id"
        (JVal.jstr "") (JVal.jint 0) tidVal hgid
      rcases hp : pyInt uidVal with e | uid
      · have hb1 : txnTryBody isoOk now1 us T s data = .error e := by
          simp [txnTryBody, hgid, hgu, hp]
        have hb2 : txnTryBody isoOk now2 us T t data = .error e := by
          simp [txnTryBody, hgid, hgu, hp]
        rw [hb1, hb2]
        rcases hc : caught e with _ | _ <;> simp [hc]
        · exact h
      · by_cases hin : uid ∈ us
        · by_cases hw : txnExists (T ++ s.staged) tidVal uid = true
          · have hw2 : txnExists (T ++ t.staged) tidVal uid = true := by
              rw [← hTeq]; exact hw
            have hb1 : txnTryBody isoOk now1 us T s data = .ok s := by
              simp [txnTryBody, hgid, hgu, hp, hin, hw]
            have hb2 : txnTryBody isoOk now2 us T t data = .ok t := by
              simp [txnTryBody, hgid, hgu, hp, hin, hw2]
            rw [hb1, hb2]
            exact Or.inl ⟨s, t, rfl, rfl, h⟩
          · have hw2 : ¬ txnExists (T ++ t.staged) tidVal uid = true := by
              rw [← hTeq]; exact hw
            obtain ⟨tsVal, k1⟩ := dictGet_always_ok data "id" "timestamp"
              (JVal.jstr "") JVal.jnull tidVal hgid
            obtain ⟨unVal, k2⟩ := dictGet_always_ok data "id" "username"
              (JVal.jstr "") JVal.jnull tidVal hgid
            obtain ⟨amtVal, k3⟩ := dictGet_always_ok data "id" "amount"
              (JVal.jstr "") (JVal.jint 0) tidVal hgid
            obtain ⟨methodVal, k4⟩ := dictGet_always_ok data "id" "method"
              (JVal.jstr "") (JVal.jstr "wallet") tidVal hgid
            obtain ⟨statusVal, k5⟩ := dictGet_always_ok data "id" "status"
              (JVal.jstr "") (JVal.jstr "success") tidVal hgid
            obtain ⟨typeVal, k6⟩ := dictGet_always_ok data "id" "type"
              (JVal.jstr "") JVal.jnull tidVal hgid
            obtain ⟨descVal, k7⟩ := dictGet_always_ok data "id" "description"
              (JVal.jstr "") (JVal.jstr "") tidVal hgid
            obtain ⟨nbVal, k8⟩ := dictGet_always_ok data "id" "new_balance"
              (JVal.jstr "") JVal.jnull tidVal hgid
            obtain ⟨dateVal, k9⟩ := dictGet_always_ok data "id" "date"
              (JVal.jstr "") (JVal.jstr "") tidVal hgid
            obtain ⟨timeVal, k10⟩ := dictGet_always_ok data "id" "time"
              (JVal.jstr "") (JVal.jstr "") tidVal hgid
            rcases hf : pyFloat amtVal with e | b
            · have hb1 : txnTryBody isoOk now1 us T s data = .error e := by
                simp [txnTryBody, hgid, hgu, hp, hin, hw, k1, k2, k3, k4,
                  k5, k6, k7, k8, k9, k10, hf]
              have hb2 : txnTryBody isoOk now2 us T t data = .error e := by
                simp [txnTryBody, hgid, hgu, hp, hin, hw2, k1, k2, k3, k4,
                  k5, k6, k7, k8, k9, k10, hf]
              rw [hb1, hb2]
              rcases hc : caught e with _ | _ <;> simp [hc]
              · exact h
            · have hb1 : txnTryBody isoOk now1 us T s data
                  = .ok { s with
                            staged := s.staged ++
                              [⟨tidVal, uid, unVal, b, methodVal, statusVal,
                                typeVal, descVal, nbVal, dateVal, timeVal,
                                tsOrNow isoOk now1 tsVal⟩],
                            count := s.count + 1 } := by
                simp [txnTryBody, hgid, hgu, hp, hin, hw, k1, k2, k3, k4,
                  k5, k6, k7, k8, k9, k10, hf]
              have hb2 : txnTryBody isoOk now2 us T t data
                  = .ok { t with
                            staged := t.staged ++
                              [⟨tidVal, uid, unVal, b, methodVal, statusVal,
                                typeVal, descVal, nbVal, dateVal, timeVal,
                                tsOrNow isoOk now2 tsVal⟩],
                            count := t.count + 1 } := by
                simp [txnTryBody, hgid, hgu, hp, hin, hw2, k1, k2, k3, k4,
                  k5, k6, k7, k8, k9, k10, hf]
              rw [hb1, hb2]
              refine Or.inl ⟨_, _, rfl, rfl, ?_⟩
              simp only [TState.sim, List.map_append, List.map_cons,
                List.map_nil, txnKey]
              rw [hmap]
        · have hb1 : txnTryBody isoOk now1 us T s data
              = .ok { s with skipped := s.skipped + 1 } := by
            simp [txnTryBody, hgid, hgu, hp, hin]
          have hb2 : txnTryBody isoOk now2 us T t data
              = .ok { t with skipped := t.skipped + 1 } := by
            simp [txnTryBody, hgid, hgu, hp, hin]
          rw [hb1, hb2]
          exact Or.inl ⟨_, _, rfl, rfl, h⟩

/-- Fold version of `txnLine_sim`. -/
theorem txnFold_sim (isoOk : String → Bool) (now1 now2 : DT)
    (us : List Int) (T : List Transaction) (lines : List RawLine) :
    ∀ s t : TState, TState.sim s t →
      (∃ s' t', lines.foldlM (processTxnLine isoOk now1 us T) s = .ok s'
          ∧ lines.foldlM (processTxnLine isoOk now2 us T) t = .ok t'
          ∧ TState.sim s' t')
      ∨ (∃ e, lines.foldlM (processTxnLine isoOk now1 us T) s = .error e
          ∧ lines.foldlM (processTxnLine isoOk now2 us T) t = .error e) := by
  induction lines with
  | nil => intro s t h; exact Or.inl ⟨s, t, rfl, rfl, h⟩
  | cons l ls ih =>
    intro s t h
    rcases txnLine_sim isoOk now1 now2 us T l s t h with
      ⟨s1, t1, hs1, ht1, hsim⟩ | ⟨e, hs1, ht1⟩
    · rcases ih s1 t1 hsim with ⟨s', t', hs2, ht2, hsim'⟩ | ⟨e, hs2, ht2⟩
      · refine Or.inl ⟨s', t', ?_, ?_, hsim'⟩ <;>
          rw [List.foldlM_cons] <;>
          simp [hs1, ht1, Bind.bind, Except.bind, hs2, ht2]
      · refine Or.inr ⟨e, ?_, ?_⟩ <;>
          rw [List.foldlM_cons] <;>
          simp [hs1, ht1, Bind.bind, Except.bind, hs2, ht2]
    · refine Or.inr ⟨e, ?_, ?_⟩ <;>
        rw [List.foldlM_cons] <;>
        simp [hs1, ht1, Bind.bind, Except.bind]

/-- Normal transaction runs only append to the transaction table and
never touch users or wallets. -/
theorem mt_ok_shape (isoOk : String → Bool) (now : DT) (c : Bool)
    (f : Option (List RawLine)) (db db' : DB) (n : Nat)
    (h : migrate_transactions isoOk now c f db = .ok db' n) :
    db'.users = db.users ∧ db'.wallets = db.wallets
    ∧ ∃ S, db'.txns = db.txns ++ S := by
  cases f with
  | none =>
    cases h
    exact ⟨rfl, rfl, [], by simp⟩
  | some lines =>
    simp only [migrate_transactions] at h
    rcases hf : lines.foldlM (processTxnLine isoOk now db.users db.txns)
        ⟨[], 0, 0⟩ with e | s <;> rw [hf] at h
    · cases h
    · cases c with
      | true => cases h; exact ⟨rfl, rfl, s.staged, rfl⟩
      | false => cases h; exact ⟨rfl, rfl, [], by simp⟩

/-- An escaping exception leaves the database exactly as it was. -/
theorem mt_exc_shape (isoOk : String → Bool) (now : DT) (c : Bool)
    (f : Option (List RawLine)) (db db' : DB) (e : PyExc)
    (h : migrate_transactions isoOk now c f db = .exc e db') : db' = db := by
  cases f with
  | none => cases h
  | some lines =>
    simp only [migrate_transactions] at h
    rcases hf : lines.foldlM (processTxnLine isoOk now db.users db.txns)
        ⟨[], 0, 0⟩ with e1 | s <;> rw [hf] at h
    · cases h; rfl
    · cases c with
      | true => cases h
      | false => cases h

/-- A transaction run that aborts with an exception aborts identically
when replayed with a different clock. -/
theorem migrate_transactions_exc_replay (isoOk : String → Bool)
    (now1 now2 : DT) (c : Bool) (tf : Option (List RawLine)) (db db0 : DB)
    (e : PyExc)
    (h : migrate_transactions isoOk now1 c tf db = .exc e db0) :
    migrate_transactions isoOk now2 c tf db = .exc e db0 := by
  cases tf with
  | none => cases h
  | some lines =>
    simp only [migrate_transactions] at h ⊢
    rcases hf : lines.foldlM (processTxnLine isoOk now1 db.users db.txns)
        ⟨[], 0, 0⟩ with e1 | s <;> rw [hf] at h
    · rcases txnFold_sim isoOk now1 now2 db.users db.txns lines
        ⟨[], 0, 0⟩ ⟨[], 0, 0⟩ rfl with ⟨s', t', h1, _, _⟩ | ⟨e2, h1, h2⟩
      · rw [hf] at h1; cases h1
      · rw [hf] at h1
        cases h1
        rw [h2]
        exact h
    · cases c with
      | true => cases h
      | false => cases h

/-- A transaction run that finished normally replays as a no-op on any
later database with the same users whose transaction table covers the
run's result. -/
theorem migrate_transactions_replay (isoOk : String → Bool) (now1 now2 : DT)
    (tf : Option (List RawLine)) (db db1 db2 : DB) (n : Nat)
    (h1 : migrate_transactions isoOk now1 true tf db = .ok db1 n)
    (husers : db2.users = db.users)
    (htxn : ∀ (tid : JVal) (u : Int),
      txnExists db1.txns tid u = true → txnExists db2.txns tid u = true) :
    ∃ m, migrate_transactions isoOk now2 true tf db2 = .ok db2 m := by
  cases tf with
  | none => exact ⟨0, rfl⟩
  | some lines =>
    simp only [migrate_transactions] at h1 ⊢
    rcases hf : lines.foldlM (processTxnLine isoOk now1 db.users db.txns)
        ⟨[], 0, 0⟩ with e | s <;> rw [hf] at h1
    · cases h1
    · cases h1
      have hstg : ∀ r ∈ s.staged,
          txnExists db2.txns r.transaction_id r.user_id = true := by
        intro r hr
        apply htxn
        simp only [txnExists_append]
        have : txnExists s.staged r.transaction_id r.user_id = true := by
          rw [txnExists_iff_mem, List.mem_map]
          exact ⟨r, hr, rfl⟩
        simp [this]
      have hT : ∀ (tid : JVal) (u : Int), txnExists db.txns tid u = true
          → txnExists db2.txns tid u = true := by
        intro tid u hu
        apply htxn
        simp [txnExists_append, hu]
      obtain ⟨k, h2⟩ := txnFold_replay isoOk now1 now2 db.users db.txns
        db2.txns hT lines ⟨[], 0, 0⟩ s ⟨[], 0, 0⟩ hf hstg
      refine ⟨0, ?_⟩
      rw [husers, h2]
      obtain ⟨u2, w2, t2⟩ := db2
      simp_all

/-- Running the whole job a second time over the same input files leaves
the database of the first run unchanged: every row the first run
committed is found by the existence checks and skipped, and a first run
that aborted aborts again at the same line before committing anything. -/
theorem job_twice_eq (isoOk : String → Bool) (now1 now2 : DT)
    (wf tf : Option (List RawLine)) (db : DB) :
    jobOnce isoOk now2 wf tf (jobOnce isoOk now1 wf tf db)
      = jobOnce isoOk now1 wf tf db := by
  rcases hw1 : migrate_wallets isoOk now1 true wf db with ⟨dbw, n⟩ | ⟨e, dbw⟩
  · rcases ht1 : migrate_transactions isoOk now1 true tf dbw with
      ⟨dbt, k⟩ | ⟨f, dbt⟩
    · have hshape_w := mw_ok_shape isoOk now1 true wf db dbw n hw1
      have hshape_t := mt_ok_shape isoOk now1 true tf dbw dbt k ht1
      have hjob1 : jobOnce isoOk now1 wf tf db = dbt := by
        simp [jobOnce, hw1, ht1]
      rw [hjob1]
      obtain ⟨m, hw2⟩ := migrate_wallets_replay isoOk now1 now2 wf db dbw dbt
        n hw1 (by rw [hshape_t.1, hshape_w.1])
        (fun u hu => by rw [hshape_t.2.1]; exact hu)
      obtain ⟨m', ht2⟩ := migrate_transactions_replay isoOk now1 now2 tf dbw
        dbt dbt k ht1 (by rw [hshape_t.1]) (fun tid u hu => hu)
      simp [jobOnce, hw2, ht2]
    · have hdbt : dbt = dbw := mt_exc_shape isoOk now1 true tf dbw dbt f ht1
      subst hdbt
      have hshape_w := mw_ok_shape isoOk now1 true wf db dbt n hw1
      have hjob1 : jobOnce isoOk now1 wf tf db = dbt := by
        simp [jobOnce, hw1, ht1]
      rw [hjob1]
      obtain ⟨m, hw2⟩ := migrate_wallets_replay isoOk now1 now2 wf db dbt dbt
        n hw1 (by rw [hshape_w.1]) (fun u hu => hu)
      have ht2 := migrate_transactions_exc_replay isoOk now1 now2 true tf
        dbt dbt f ht1
      simp [jobOnce, hw2, ht2]
  · have hdbw : dbw = db := mw_exc_shape isoOk now1 true wf db dbw e hw1
    subst hdbw
    have hjob1 : jobOnce isoOk now1 wf tf dbw = dbw := by
      simp [jobOnce, hw1]
    rw [hjob1]
    have hw2 := migrate_wallets_exc_replay isoOk now1 now2 true wf dbw dbw
      e hw1
    simp [jobOnce, hw2]

/-- C1: running the whole job twice in succession over the same pair of
input files (with commits succeeding and an arbitrary, possibly
different, import time for each run) yields the same final wallet and
transaction row counts in the database as running it once: every record
the first run inserted is detected by the existence check (wallets keyed
by user id, transactions by the (transaction id, user id) pair) and the
second run inserts no rows. -/
theorem job_idempotent (isoOk : String → Bool) (now1 now2 : DT)
    (wf tf : Option (List RawLine)) (db : DB) :
    (jobOnce isoOk now2 wf tf (jobOnce isoOk now1 wf tf db)).wallets.length
      = (jobOnce isoOk now1 wf tf db).wallets.length
    ∧ (jobOnce isoOk now2 wf tf (jobOnce isoOk now1 wf tf db)).txns.length
      = (jobOnce isoOk now1 wf tf db).txns.length := by
  rw [job_twice_eq]
  exact ⟨rfl, rfl⟩

end Migrate
